import Mathlib

set_option maxRecDepth 8000

set_option linter.unusedVariables false
set_option maxHeartbeats 1000000

/-!
Verification development for the audio translation node of this repository
(nodes/groq_api_alm_translate.py).  The method
GroqAPIALMTranslate.process_translation_request is shallowly embedded below:
pure Python string and arithmetic operations become Lean functions, the
filesystem and the HTTP transport become an explicit environment record, and
Python exceptions become an explicit Except channel that the embedded
try/except structure catches.  Python floats are modelled as IEEE-754
binary64 values (F64) with executable round-to-nearest-ties-even rounding,
so the representation error of decimals such as 8.7 is carried through the
timestamp arithmetic exactly as CPython computes it; the JSON values
produced by json.loads and consumed by json.dumps
are modelled by the Json type together with executable loads/dumps functions
that mirror the observable behaviour of the Python json module (decimal
numerals, 4-space indentation, string escapes).
-/

/-! ## Characters and strings -/

def lbrace : Char := Char.ofNat 123

def rbrace : Char := Char.ofNat 125

def squoteS : String := ⟨[Char.ofNat 39]⟩

-- whitespace stripped by the Python str.strip method (ASCII part)
def isPyWs (c : Char) : Bool :=
  c = ' ' || c = '\t' || c = '\n' || c = '\r' || c = Char.ofNat 11 || c = Char.ofNat 12

def rstripL (l : List Char) : List Char :=
  (l.reverse.dropWhile isPyWs).reverse

def stripL (l : List Char) : List Char :=
  rstripL (l.dropWhile isPyWs)

/-- Model of the Python method str.strip with no arguments. -/
def pyStrip (s : String) : String := ⟨stripL s.data⟩

/-- Trailing-whitespace-only trim, used to state the spec formulas. -/
def pyRstrip (s : String) : String := ⟨rstripL s.data⟩

/-! ## Decimal numerals -/

def digitChar (d : Nat) : Char :=
  match d with
  | 0 => '0' | 1 => '1' | 2 => '2' | 3 => '3' | 4 => '4'
  | 5 => '5' | 6 => '6' | 7 => '7' | 8 => '8' | _ => '9'

def digitVal (c : Char) : Nat := c.toNat - 48

def natToCharsAux : Nat → Nat → List Char
  | 0, _ => []
  | fuel+1, n => if n = 0 then [] else digitChar (n % 10) :: natToCharsAux fuel (n / 10)

def natToChars (n : Nat) : List Char :=
  if n = 0 then ['0'] else (natToCharsAux n n).reverse

/-- Model of the Python decimal rendering str(n) for a nonnegative integer. -/
def natToStr (n : Nat) : String := ⟨natToChars n⟩

def natFromChars (l : List Char) : Nat := l.foldl (fun a c => 10 * a + digitVal c) 0

/-- Model of the Python format specifier 0wd: zero padding to a total
width w, the sign included in the width. -/
def intPad (w : Nat) (n : Int) : String :=
  ⟨(if n < 0 then ['-'] else []) ++
   List.replicate (w - ((if n < 0 then 1 else 0) + (natToChars n.natAbs).length)) '0' ++
   natToChars n.natAbs⟩

/-! ## JSON values

Modelled from the spec: the Python json module is outside this repository.
A JSON number is kept as an exact decimal m times 10 to the minus e, a JSON
object as its ordered field list. -/

inductive Json where
  | null : Json
  | jbool (b : Bool) : Json
  | num (m : Int) (e : Nat) : Json
  | str (s : String) : Json
  | arr (elems : List Json) : Json
  | obj (fields : List (String × Json)) : Json

mutual
def jsize : Json → Nat
  | .null => 1
  | .jbool _ => 1
  | .num _ _ => 1
  | .str _ => 1
  | .arr xs => 2 + jsizeList xs
  | .obj fs => 2 + jsizeFields fs
termination_by j => sizeOf j
decreasing_by all_goals (simp_wf <;> omega)
def jsizeList : List Json → Nat
  | [] => 0
  | x :: xs => jsize x + jsizeList xs
termination_by xs => sizeOf xs
decreasing_by all_goals (simp_wf <;> omega)
def jsizeFields : List (String × Json) → Nat
  | [] => 0
  | (_, v) :: fs => jsize v + jsizeFields fs
termination_by fs => sizeOf fs
decreasing_by all_goals (simp_wf <;> omega)
end

/-! ## JSON serialization: the Python call json.dumps(x, indent=4) -/

def padChars (d : Nat) : List Char := List.replicate (4 * d) ' '

def numChars (m : Int) (e : Nat) : List Char :=
  (if m < 0 then ['-'] else []) ++
  (if e = 0 then natToChars m.natAbs
   else natToChars (m.natAbs / 10 ^ e) ++ '.' ::
     (List.replicate (e - (natToChars (m.natAbs % 10 ^ e)).length) '0' ++
      natToChars (m.natAbs % 10 ^ e)))

def hexChar (n : Nat) : Char :=
  match n with
  | 10 => 'a' | 11 => 'b' | 12 => 'c' | 13 => 'd' | 14 => 'e' | 15 => 'f'
  | k => digitChar k

def escChar (c : Char) : List Char :=
  if c = '"' then ['\\', '"']
  else if c = '\\' then ['\\', '\\']
  else if c = '\n' then ['\\', 'n']
  else if c = '\t' then ['\\', 't']
  else if c = '\r' then ['\\', 'r']
  else if c = Char.ofNat 8 then ['\\', 'b']
  else if c = Char.ofNat 12 then ['\\', 'f']
  else if c.toNat < 32 then
    ['\\', 'u', '0', '0', hexChar (c.toNat / 16), hexChar (c.toNat % 16)]
  else [c]

def escChars : List Char → List Char
  | [] => []
  | c :: l => escChar c ++ escChars l

def strChars (s : String) : List Char := '"' :: escChars s.data ++ ['"']

mutual
def dumpsAt (d : Nat) : Json → List Char
  | .null => ['n', 'u', 'l', 'l']
  | .jbool true => ['t', 'r', 'u', 'e']
  | .jbool false => ['f', 'a', 'l', 's', 'e']
  | .num m e => numChars m e
  | .str s => strChars s
  | .arr [] => ['[', ']']
  | .arr (x :: xs) => '[' :: '\n' :: dumpItems (d+1) x xs ++ '\n' :: padChars d ++ [']']
  | .obj [] => [lbrace, rbrace]
  | .obj (f :: fs) => lbrace :: '\n' :: dumpFields (d+1) f fs ++ '\n' :: padChars d ++ [rbrace]
termination_by j => sizeOf j
decreasing_by all_goals (simp_wf <;> omega)
def dumpItems (d : Nat) : Json → List Json → List Char
  | x, [] => padChars d ++ dumpsAt d x
  | x, y :: ys => padChars d ++ dumpsAt d x ++ ',' :: '\n' :: dumpItems d y ys
termination_by x xs => 1 + sizeOf x + sizeOf xs
decreasing_by all_goals (simp_wf <;> omega)
def dumpFields (d : Nat) : (String × Json) → List (String × Json) → List Char
  | (k, v), [] => padChars d ++ strChars k ++ ':' :: ' ' :: dumpsAt d v
  | (k, v), g :: gs =>
      padChars d ++ strChars k ++ ':' :: ' ' :: dumpsAt d v ++ ',' :: '\n' :: dumpFields d g gs
termination_by f fs => 1 + sizeOf f + sizeOf fs
decreasing_by all_goals (simp_wf <;> omega)
end

/-- Model of the Python call json.dumps(x, indent=4). -/
def dumps (j : Json) : String := ⟨dumpsAt 0 j⟩

/-! ## JSON parsing: the Python call json.loads(s) -/

def isJsonWs (c : Char) : Bool := c = ' ' || c = '\t' || c = '\n' || c = '\r'

def skipWs (l : List Char) : List Char := l.dropWhile isJsonWs

def isHexDigit (c : Char) : Bool :=
  c.isDigit || ('a' ≤ c && c ≤ 'f') || ('A' ≤ c && c ≤ 'F')

def hexVal (c : Char) : Nat :=
  if c.isDigit then digitVal c
  else if 'a' ≤ c && c ≤ 'f' then c.toNat - 87
  else c.toNat - 55

def pcons (c : Char) : Option (List Char × List Char) → Option (List Char × List Char)
  | none => none
  | some (s, r) => some (c :: s, r)

def parseStringBody : List Char → Option (List Char × List Char)
  | [] => none
  | c :: rest =>
    if c = '"' then some ([], rest)
    else if c = '\\' then
      match rest with
      | [] => none
      | e :: r =>
        if e = '"' then pcons '"' (parseStringBody r)
        else if e = '\\' then pcons '\\' (parseStringBody r)
        else if e = '/' then pcons '/' (parseStringBody r)
        else if e = 'n' then pcons '\n' (parseStringBody r)
        else if e = 't' then pcons '\t' (parseStringBody r)
        else if e = 'r' then pcons '\r' (parseStringBody r)
        else if e = 'b' then pcons (Char.ofNat 8) (parseStringBody r)
        else if e = 'f' then pcons (Char.ofNat 12) (parseStringBody r)
        else if e = 'u' then
          match r with
          | h1 :: h2 :: h3 :: h4 :: r2 =>
            if isHexDigit h1 && isHexDigit h2 && isHexDigit h3 && isHexDigit h4 then
              pcons (Char.ofNat (((hexVal h1 * 16 + hexVal h2) * 16 + hexVal h3) * 16 + hexVal h4))
                (parseStringBody r2)
            else none
          | _ => none
        else none
    else pcons c (parseStringBody rest)

def parseNatChars (l : List Char) : Option (Nat × Nat × List Char) :=
  let ds := l.takeWhile Char.isDigit
  if ds.isEmpty then none
  else some (natFromChars ds, ds.length, l.dropWhile Char.isDigit)

def splitSign (l : List Char) : Bool × List Char :=
  match l with
  | '-' :: t => (true, t)
  | _ => (false, l)

def splitDot (l : List Char) : Bool × List Char :=
  match l with
  | '.' :: t => (true, t)
  | _ => (false, l)

def parseNumber (l : List Char) : Option (Json × List Char) :=
  let p := splitSign l
  match parseNatChars p.2 with
  | none => none
  | some (ip, _, r1) =>
    let q := splitDot r1
    if q.1 then
      match parseNatChars q.2 with
      | none => none
      | some (fp, fl, r3) =>
        let mv : Int := (ip * 10 ^ fl + fp : Nat)
        some (.num (if p.1 then -mv else mv) fl, r3)
    else some (.num (if p.1 then -(ip : Int) else (ip : Int)) 0, r1)

inductive PM where
  | v : PM
  | arrItems : PM
  | objItems : PM

def POut : PM → Type
  | .v => Json
  | .arrItems => List Json
  | .objItems => List (String × Json)

def parseF : (fuel : Nat) → (m : PM) → List Char → Option (POut m × List Char)
  | 0, _, _ => none
  | fuel+1, .v, l =>
    (match skipWs l with
     | [] => none
     | c :: rest =>
       if c = 'n' then
         match rest with
         | 'u' :: 'l' :: 'l' :: r => some (.null, r)
         | _ => none
       else if c = 't' then
         match rest with
         | 'r' :: 'u' :: 'e' :: r => some (.jbool true, r)
         | _ => none
       else if c = 'f' then
         match rest with
         | 'a' :: 'l' :: 's' :: 'e' :: r => some (.jbool false, r)
         | _ => none
       else if c = '"' then
         match parseStringBody rest with
         | some (s, r) => some (.str ⟨s⟩, r)
         | none => none
       else if c = '[' then
         match skipWs rest with
         | ']' :: r => some (.arr [], r)
         | _ =>
           match parseF fuel .arrItems rest with
           | some (vs, r) => some (.arr vs, r)
           | none => none
       else if c = lbrace then
         match skipWs rest with
         | [] => none
         | x :: r2 =>
           if x = rbrace then some (.obj [], r2)
           else
             match parseF fuel .objItems rest with
             | some (fs, r) => some (.obj fs, r)
             | none => none
       else if c = '-' || c.isDigit then parseNumber (c :: rest)
       else none)
  | fuel+1, .arrItems, l =>
    (match parseF fuel .v l with
     | none => none
     | some (v, r) =>
       match skipWs r with
       | ',' :: r2 =>
         match parseF fuel .arrItems r2 with
         | none => none
         | some (vs, r3) => some (v :: vs, r3)
       | ']' :: r2 => some ([v], r2)
       | _ => none)
  | fuel+1, .objItems, l =>
    (match skipWs l with
     | '"' :: r1 =>
       match parseStringBody r1 with
       | none => none
       | some (k, r2) =>
         match skipWs r2 with
         | ':' :: r3 =>
           match parseF fuel .v r3 with
           | none => none
           | some (v, r4) =>
             match skipWs r4 with
             | ',' :: r5 =>
               match parseF fuel .objItems r5 with
               | none => none
               | some (fs, r6) => some ((⟨k⟩, v) :: fs, r6)
             | x :: r5 => if x = rbrace then some ([(⟨k⟩, v)], r5) else none
             | [] => none
         | _ => none
     | _ => none)

/-- Model of the Python call json.loads(s); the None result stands for the
ValueError the Python call raises, which the source wraps in its own
try/except. -/
def loads (s : String) : Option Json :=
  match parseF (s.data.length + 1) .v s.data with
  | some (j, rest) => if skipWs rest = [] then some j else none
  | none => none

/-! ## Python float arithmetic

Python floats are modelled as exact fractions with a positive denominator.
The operations below mirror the Python operators used at lines 157 to 159 of
the source: floor division, the modulo operator, multiplication, subtraction
and the truncating int() conversion. -/

/-- The temperature argument of the handler, which the handler passes into
the request data as a string and never uses numerically; it is kept as an
opaque numerator/denominator pair and takes no part in any arithmetic. -/
structure PyFloat where
  num : Int
  den : Nat
deriving DecidableEq, Repr

def PyFloat.ofInt (k : Int) : PyFloat := ⟨k, 1⟩

/-! ## Python dictionary and iteration semantics on JSON values -/

inductive PyExn where
  | attrError : PyExn
  | typeError : PyExn
  | zeroDivisionError : PyExn
  | overflowError : PyExn
  | valueError : PyExn
deriving DecidableEq, Repr

/-- Python segment.get(key, default): raises AttributeError unless the value
is a dictionary; the last binding of a duplicated key wins. -/
def pyDictGet (j : Json) (key : String) (dflt : Json) : Except PyExn Json :=
  match j with
  | .obj fields =>
      .ok ((fields.foldl (fun acc kv => if kv.1 = key then some kv.2 else acc) none).getD dflt)
  | _ => .error .attrError

/-- Python iteration over a JSON value: lists yield their elements, strings
their characters, dictionaries their keys; other values raise TypeError. -/
def pyIter : Json → Except PyExn (List Json)
  | .arr xs => .ok xs
  | .str s => .ok (s.data.map (fun c => Json.str ⟨[c]⟩))
  | .obj fs => .ok (fs.map (fun kv => Json.str kv.1))
  | _ => .error .typeError

/-- Python value.strip() on a field that must be a string; any other value
raises AttributeError. -/
def pyStrAttrStrip : Json → Except PyExn String
  | .str s => .ok (pyStrip s)
  | _ => .error .attrError

/-! ## IEEE-754 binary64 floats

Python floats are IEEE-754 binary64 values.  A finite binary64 value is an
exact dyadic rational; F64 stores it as a scaled integer n / 2^k, together
with the two non-finite shapes.  The single rounding primitive roundRat
rounds an arbitrary fraction a / b to the nearest binary64 value with ties
to even, reducing the precision in the subnormal range and overflowing to
infinity past the largest finite double, exactly as the format prescribes.
Every arithmetic operation computes the exact rational result and rounds it
once, which is the IEEE-754 semantics of each CPython float operation. -/

def bitLenAux : Nat → Nat → Nat
  | 0, _ => 0
  | fuel+1, n => if n = 0 then 0 else bitLenAux fuel (n / 2) + 1

/-- The number of binary digits of n. -/
def bitLen (n : Nat) : Nat := bitLenAux n n

/-- The integer e with 2 ^ e ≤ s / b < 2 ^ (e+1), for 1 ≤ s and 1 ≤ b. -/
def ratLog2 (s b : Nat) : Int :=
  let e0 : Int := (bitLen s : Int) - (bitLen b : Int)
  if b * 2 ^ e0.toNat ≤ s * 2 ^ (-e0).toNat then e0 else e0 - 1

/-- An IEEE-754 binary64 value: a finite dyadic rational n / 2^k, an
infinity with its sign, or a NaN (all NaN payloads identified; the two
signed zeros are identified as the finite value 0, which the handler cannot
observe since it only extracts integers from floats). -/
inductive F64 where
  | finite (n : Int) (k : Nat) : F64
  | inf (neg : Bool) : F64
  | nan : F64
deriving DecidableEq, Repr

/-- The exact rational value of a finite binary64; 0 on the non-finite
shapes, which every lemma excludes explicitly. -/
def f64Val : F64 → ℚ
  | .finite n k => (n : ℚ) / 2 ^ k
  | _ => 0

def F64.isFinite : F64 → Bool
  | .finite _ _ => true
  | _ => false

/-- The rounded significand: s / b scaled by 2 ^ sh, rounded to the nearest
integer with ties to even. -/
def rrCore (s b : Nat) (sh : Int) : Nat :=
  let num := s * 2 ^ sh.toNat
  let den := b * 2 ^ (-sh).toNat
  let q := num / den
  if den < 2 * (num % den) then q + 1
  else if 2 * (num % den) = den then (if q % 2 = 1 then q + 1 else q) else q

/-- Round a / b (with 1 ≤ b) to the nearest binary64, ties to even: find
the binade exponent e of the magnitude, round at the ulp scale
2 ^ (e - 52), clamped to the subnormal scale 2 ^ (-1074), and overflow to
infinity at 2 ^ 1024. -/
def roundRat (a : Int) (b : Nat) : F64 :=
  if a = 0 then .finite 0 0
  else
    let s := a.natAbs
    let e := ratLog2 s b
    let sh := min (52 - e) 1074
    let q2 := rrCore s b sh
    if 1024 + sh < 0 then .inf (decide (a < 0))
    else if 2 ^ (1024 + sh).toNat ≤ q2 then .inf (decide (a < 0))
    else if 0 ≤ sh then .finite (if a < 0 then -(q2 : Int) else (q2 : Int)) sh.toNat
    else .finite ((if a < 0 then -(q2 : Int) else (q2 : Int)) * 2 ^ (-sh).toNat) 0

/-- float(i) for an integer i: rounds once, per IEEE-754 conversion. -/
def ofIntF (i : Int) : F64 := roundRat i 1

/-- json.loads turns the decimal numeral m times 10^-e into the nearest
binary64 (CPython strtod is correctly rounded). -/
def ofDecimal (m : Int) (e : Nat) : F64 := roundRat m (10 ^ e)

/-- IEEE-754 subtraction: the exact difference, rounded once. -/
def F64.sub : F64 → F64 → F64
  | .finite n1 k1, .finite n2 k2 => roundRat (n1 * 2 ^ k2 - n2 * 2 ^ k1) (2 ^ (k1 + k2))
  | .nan, _ => .nan
  | _, .nan => .nan
  | .inf p, .inf q => if p = q then .nan else .inf p
  | .inf p, .finite _ _ => .inf p
  | .finite _ _, .inf p => .inf (!p)

/-- IEEE-754 multiplication: the exact product, rounded once. -/
def F64.mul : F64 → F64 → F64
  | .finite n1 k1, .finite n2 k2 => roundRat (n1 * n2) (2 ^ (k1 + k2))
  | .nan, _ => .nan
  | _, .nan => .nan
  | .inf p, .inf q => .inf (xor p q)
  | .inf p, .finite n _ => if n = 0 then .nan else .inf (xor p (decide (n < 0)))
  | .finite n _, .inf p => if n = 0 then .nan else .inf (xor p (decide (n < 0)))

/-- CPython float floor division x // y: the mathematical floor of the
exact quotient, rounded once to binary64 (float_divmod computes fmod
exactly and corrects the rounded quotient to the floor); a zero divisor
raises ZeroDivisionError, an infinite dividend gives NaN. -/
def F64.floordiv : F64 → F64 → Except PyExn F64
  | .finite n1 k1, .finite n2 k2 =>
      if n2 = 0 then .error .zeroDivisionError
      else .ok (roundRat ((n1 * 2 ^ k2).fdiv (n2 * 2 ^ k1)) 1)
  | .nan, _ => .ok .nan
  | _, .nan => .ok .nan
  | .inf _, .inf _ => .ok .nan
  | .inf _, .finite n _ => if n = 0 then .error .zeroDivisionError else .ok .nan
  | .finite n _, .inf p =>
      .ok (if n = 0 then .finite 0 0
           else if decide (n < 0) = p then .finite 0 0 else .finite (-1) 0)

/-- CPython float modulo x % y: the exact C fmod (truncated remainder,
always exactly representable), then, when the nonzero remainder disagrees
in sign with the divisor, one rounded addition of the divisor. -/
def F64.pymod : F64 → F64 → Except PyExn F64
  | .finite n1 k1, .finite n2 k2 =>
      if n2 = 0 then .error .zeroDivisionError
      else
        let t := (n1 * 2 ^ k2).tdiv (n2 * 2 ^ k1)
        let r := n1 * 2 ^ k2 - t * (n2 * 2 ^ k1)
        if r ≠ 0 ∧ decide (r < 0) ≠ decide (n2 < 0) then
          .ok (roundRat (r + n2 * 2 ^ k1) (2 ^ (k1 + k2)))
        else .ok (.finite r (k1 + k2))
  | .nan, _ => .ok .nan
  | _, .nan => .ok .nan
  | .inf _, .inf _ => .ok .nan
  | .inf _, .finite n _ => if n = 0 then .error .zeroDivisionError else .ok .nan
  | .finite n k, .inf p =>
      if n = 0 then .ok (.finite 0 0)
      else if decide (n < 0) = p then .ok (.finite n k) else .ok (.inf p)

/-- Python int(x) on a float: truncation toward zero; raises OverflowError
on an infinity and ValueError on NaN. -/
def F64.truncToInt : F64 → Except PyExn Int
  | .finite n k => .ok (n.tdiv (2 ^ k))
  | .inf _ => .error .overflowError
  | .nan => .error .valueError

/-- The float literal 60 of line 157, exactly representable. -/
def sixty : F64 := .finite 60 0

/-- The float literal 1000 of line 159, exactly representable. -/
def thousand : F64 := .finite 1000 0

/-- Python float coercion of a JSON value for the arithmetic at lines 157 to
159: a JSON number was produced by json.loads, hence is the nearest binary64
to its decimal numeral; booleans are numeric in Python; anything else raises
TypeError there. -/
def jsonToF64 : Json → Except PyExn F64
  | .num m e => .ok (ofDecimal m e)
  | .jbool b => .ok (ofIntF (if b then 1 else 0))
  | _ => .error .typeError

/-! ## The embedded handler -/

structure TranslationResult where
  text : String
  success : Bool
  status_code : String
deriving DecidableEq, Repr

inductive HttpOutcome where
  | exn : HttpOutcome
  | resp (status : Nat) (reason : String) (text : String) : HttpOutcome
deriving DecidableEq, Repr

/-- The environment of one invocation: the filesystem predicates, the file
content, the outcome of each successive requests.post call, and the preset
mapping loaded at construction (modelled from the spec: the preset loader is
outside this repository). -/
structure Env where
  isFile : String → Bool
  readAudio : String → Option (List Nat)
  attempts : Nat → HttpOutcome
  prompt_options : String → String

/-- The observable behaviour of one invocation: the returned triple plus the
side effect trace (HTTP attempts issued, sleep durations in seconds, file
read attempts) and the prompt field of the request data, when assembled. -/
structure RunTrace where
  result : TranslationResult
  httpCalls : Nat
  sleeps : List Nat
  fileReads : Nat
  promptField : Option String
deriving DecidableEq, Repr

def DEFAULT_PROMPT : String :=
  "Translate the audio file using the style and guidance of [user_input]"

def SUPPORTED_AUDIO_FORMATS : List String := ["mp3", "mp4", "mpeg", "mpga", "m4a", "wav", "webm"]

/-- Modelled from the spec: get_prompt_content lives in utils/api_utils.py,
which is not part of the given sources; the spec describes it as the lookup
of the preset name in the loaded preset mapping. -/
def get_prompt_content (prompt_options : String → String) (preset : String) : String :=
  prompt_options preset

/-- Lines 96 to 101: prompt preparation. -/
def preparePrompt (prompt_options : String → String) (preset user_input : String) : Option String :=
  if preset = DEFAULT_PROMPT then
    (if user_input = "" then none
     else some (DEFAULT_PROMPT.replace "[user_input]" (pyStrip user_input)))
  else some ((get_prompt_content prompt_options preset).replace "[user_input]" (pyStrip user_input))

/-- Lines 123 to 124: the prompt enters the request data only when truthy. -/
def promptDataField : Option String → Option String
  | none => none
  | some p => if p = "" then none else some p

/-- Python file_path.split(sep) for the one-character separator dot. -/
def pySplitDot : List Char → List (List Char)
  | [] => [[]]
  | c :: rest =>
    match pySplitDot rest with
    | [] => [[]]
    | p :: ps => if c = '.' then [] :: p :: ps else (c :: p) :: ps

/-- Line 83: file_path.split(dot)[-1].lower(). -/
def extOf (file_path : String) : String :=
  ⟨((pySplitDot file_path.data).getLastD []).map Char.toLower⟩

def unsupportedMsg (ext : String) : String :=
  "Unsupported audio format " ++ squoteS ++ ext ++ squoteS ++ "."

/-- Lines 108 to 113: wire format selection. -/
def apiFormatOf (response_format : String) : Option String :=
  if response_format = "json" ∨ response_format = "verbose_json" ∨ response_format = "text" then
    some response_format
  else if response_format = "text_with_timestamps" ∨ response_format = "text_with_linebreaks" then
    some "verbose_json"
  else none

/-- Lines 154 to 162: one loop iteration of the timestamp formatting, in
binary64 arithmetic: minutes = int(start_time // 60),
seconds = int(start_time % 60),
milliseconds = int((start_time - int(start_time)) * 1000). -/
def tsChunk (segment : Json) : Except PyExn String := do
  let startJ ← pyDictGet segment "start" (Json.num 0 0)
  let start_time ← jsonToF64 startJ
  let minutesF ← start_time.floordiv sixty
  let minutes ← minutesF.truncToInt
  let secondsF ← start_time.pymod sixty
  let seconds ← secondsF.truncToInt
  let ipart ← start_time.truncToInt
  let milliseconds ← ((start_time.sub (ofIntF ipart)).mul thousand).truncToInt
  let timestamp := "[" ++ intPad 2 minutes ++ ":" ++ intPad 2 seconds ++ "." ++
    intPad 3 milliseconds ++ "]"
  let textJ ← pyDictGet segment "text" (Json.str "")
  let text ← pyStrAttrStrip textJ
  .ok (timestamp ++ text ++ "\n")

def tsText : List Json → Except PyExn String
  | [] => .ok ""
  | seg :: rest => do
      let chunk ← tsChunk seg
      let tail ← tsText rest
      .ok (chunk ++ tail)

/-- Lines 168 to 170: one loop iteration of the linebreak formatting. -/
def lbChunk (segment : Json) : Except PyExn String := do
  let textJ ← pyDictGet segment "text" (Json.str "")
  let text ← pyStrAttrStrip textJ
  .ok (text ++ "\n")

def lbText : List Json → Except PyExn String
  | [] => .ok ""
  | seg :: rest => do
      let chunk ← lbChunk seg
      let tail ← lbText rest
      .ok (chunk ++ tail)

/-- Lines 133 to 173: the response shaping executed on an HTTP 200 response.
A None result means the Python code fell through the if chain without
returning, so the loop continues; an error result is an exception raised
while shaping, caught by the except clause of the loop. -/
def shapeResponse (response_format api_response_format : String) (bodyText : String) :
    Except PyExn (Option TranslationResult) :=
  if api_response_format = "text" then
    (if response_format = "text" then .ok (some ⟨bodyText, true, "200 OK"⟩) else .ok none)
  else if api_response_format = "json" ∨ api_response_format = "verbose_json" then
    match loads bodyText with
    | none =>
        .ok (some ⟨"Error parsing JSON response.", false, "200 OK but failed to parse JSON"⟩)
    | some response_json =>
      if response_format = "json" then .ok (some ⟨dumps response_json, true, "200 OK"⟩)
      else if response_format = "verbose_json" then
        .ok (some ⟨dumps response_json, true, "200 OK"⟩)
      else if response_format = "text_with_timestamps" then do
        let segmentsJ ← pyDictGet response_json "segments" (Json.arr [])
        let segments ← pyIter segmentsJ
        let translation_text ← tsText segments
        .ok (some ⟨pyStrip translation_text, true, "200 OK"⟩)
      else if response_format = "text_with_linebreaks" then do
        let segmentsJ ← pyDictGet response_json "segments" (Json.arr [])
        let segments ← pyIter segmentsJ
        let translation_text ← lbText segments
        .ok (some ⟨pyStrip translation_text, true, "200 OK"⟩)
      else .ok none
  else .ok (some ⟨"Unknown api_response_format.", false, "400 Bad Request"⟩)

/-- Lines 129 to 180: the retry loop.  The trace records the number of
requests.post calls issued and the sleep durations, in order. -/
def attemptLoop (attempts : Nat → HttpOutcome) (response_format api_response_format : String) :
    Nat → Nat → TranslationResult × Nat × List Nat
  | 0, _ => (⟨"Failed after all retries.", false, "Failed after all retries"⟩, 0, [])
  | fuel+1, idx =>
    match attempts idx with
    | .exn =>
      let t := attemptLoop attempts response_format api_response_format fuel (idx+1)
      (t.1, t.2.1 + 1, 2 :: t.2.2)
    | .resp status reason bodyText =>
      if status = 200 then
        match shapeResponse response_format api_response_format bodyText with
        | .ok (some r) => (r, 1, [])
        | .ok none =>
          let t := attemptLoop attempts response_format api_response_format fuel (idx+1)
          (t.1, t.2.1 + 1, t.2.2)
        | .error _ =>
          let t := attemptLoop attempts response_format api_response_format fuel (idx+1)
          (t.1, t.2.1 + 1, 2 :: t.2.2)
      else (⟨bodyText, false, natToStr status ++ " " ++ reason⟩, 1, [])

/-- Lines 76 to 180: the embedded handler.  The Except layer is the channel
of Python exceptions escaping the call; every exception the body can raise
is caught internally, so the result is always ok. -/
def process_translation_request (env : Env) (model file_path preset user_input
    response_format : String) (temperature : PyFloat) (max_retries : Nat) :
    Except PyExn RunTrace :=
  if env.isFile file_path = false then
    .ok ⟨⟨"File not found.", false, "400 Bad Request"⟩, 0, [], 0, none⟩
  else
    (let file_extension := extOf file_path
     if file_extension ∈ SUPPORTED_AUDIO_FORMATS then
       (match env.readAudio file_path with
        | none => .ok ⟨⟨"Error reading audio file.", false, "400 Bad Request"⟩, 0, [], 1, none⟩
        | some _audio_data =>
          let prompt := preparePrompt env.prompt_options preset user_input
          match apiFormatOf response_format with
          | none => .ok ⟨⟨"Unknown response format.", false, "400 Bad Request"⟩, 0, [], 1, none⟩
          | some api_response_format =>
            let t := attemptLoop env.attempts response_format api_response_format max_retries 0
            .ok ⟨t.1, t.2.1, t.2.2, 1, promptDataField prompt⟩)
     else .ok ⟨⟨unsupportedMsg file_extension, false, "400 Bad Request"⟩, 0, [], 0, none⟩)

/-! ## Spec-side formulas and auxiliary definitions used by the claims -/

/-- The timestamp format of the spec: zero-padded minutes and seconds, three
millisecond digits truncated toward zero, for a nonnegative start time. -/
def specTimestamp (q : ℚ) : String :=
  "[" ++ intPad 2 ⌊q / 60⌋ ++ ":" ++ intPad 2 (⌊q⌋ % 60) ++ "." ++
    intPad 3 ⌊(q - (⌊q⌋ : ℚ)) * 1000⌋ ++ "]"

def catStrings : List String → String
  | [] => ""
  | s :: rest => s ++ catStrings rest

/-- A well-formed segment with a decimal start time and a text field. -/
def mkSegment (p : Int × Nat × String) : Json :=
  Json.obj [("start", Json.num p.1 p.2.1), ("text", Json.str p.2.2)]

/-- A segment carrying only a text field. -/
def mkTextSegment (t : String) : Json := Json.obj [("text", Json.str t)]

/-- The output the C4 claim as frozen describes, reading the start times as
exact decimals: per segment the timestamp, the trimmed text, a line break;
concatenated; trailing whitespace trimmed. -/
def c4SpecText (pairs : List (Int × Nat × String)) : String :=
  pyRstrip (catStrings (pairs.map (fun p =>
    specTimestamp ((p.1 : ℚ) / 10 ^ p.2.1) ++ pyStrip p.2.2 ++ "\n")))

/-- The exact rational value of the binary64 nearest to the decimal
m times 10^-e: the start time as the program sees it after json.loads. -/
def dblQ (m : Int) (e : Nat) : ℚ := f64Val (ofDecimal m e)

/-- 1000 times the exact fractional part of the finite binary64 x, rounded
once to the nearest binary64: the fractional part of a finite double is
(n mod 2^k) / 2^k and is itself exactly representable. -/
def rnFrac1000 (x : F64) : ℚ :=
  match x with
  | .finite n k => f64Val (roundRat ((n % (2 ^ k : Int)) * 1000) (2 ^ k))
  | _ => 0

/-- The timestamp the amended C4 claim describes for a decimal start time:
let x be the binary64 value of the decimal; minutes and seconds are the
exact floors of x / 60 and of x modulo 60, and the milliseconds are 1000
times the fractional part of x, rounded once to binary64 and truncated
toward zero. -/
def specTimestampF (m : Int) (e : Nat) : String :=
  "[" ++ intPad 2 ⌊dblQ m e / 60⌋ ++ ":" ++ intPad 2 (⌊dblQ m e⌋ % 60) ++ "." ++
    intPad 3 ⌊rnFrac1000 (ofDecimal m e)⌋ ++ "]"

/-- The output the amended C4 claim describes. -/
def c4SpecTextF (pairs : List (Int × Nat × String)) : String :=
  pyRstrip (catStrings (pairs.map (fun p =>
    specTimestampF p.1 p.2.1 ++ pyStrip p.2.2 ++ "\n")))

/-- The output the C7 claim describes: trimmed texts each followed by a line
break, concatenated, only trailing whitespace trimmed. -/
def c7ClaimText (texts : List String) : String :=
  pyRstrip (catStrings (texts.map (fun t => pyStrip t ++ "\n")))

/-- The amended C7 output: the code strips leading whitespace as well. -/
def c7AmendedText (texts : List String) : String :=
  pyStrip (catStrings (texts.map (fun t => pyStrip t ++ "\n")))

/-- Whether one loop iteration on this outcome continues to the next attempt
(that is, neither branch of the iteration executes a return statement). -/
def attemptContinues (response_format api_response_format : String) : HttpOutcome → Bool
  | .exn => true
  | .resp status _ bodyText =>
    if status = 200 then
      (match shapeResponse response_format api_response_format bodyText with
       | .ok (some _) => false
       | _ => true)
    else false

def failTriple : TranslationResult :=
  ⟨"Failed after all retries.", false, "Failed after all retries"⟩

/-- An environment whose transport always returns the two-segment
verbose_json body of the spec example. -/
def envTs : Env where
  isFile := fun _ => true
  readAudio := fun _ => some [1]
  attempts := fun _ => .resp 200 "OK"
    "\x7b\"segments\": [\x7b\"start\": 65.25, \"text\": \"hi\"\x7d, \x7b\"start\": 0, \"text\": \"bye\"\x7d]\x7d"
  prompt_options := fun _ => ""

/-- An environment whose transport returns HTTP 200 with the JSON body
representing an empty array: valid JSON, but response_json.get then raises. -/
def envArrBody : Env where
  isFile := fun _ => true
  readAudio := fun _ => some [1]
  attempts := fun _ => .resp 200 "OK" "[]"
  prompt_options := fun _ => ""

/-- Two transport failures, then a successful plain text response. -/
def envThird : Env where
  isFile := fun _ => true
  readAudio := fun _ => some [1]
  attempts := fun i => if i < 2 then .exn else .resp 200 "OK" "hola"
  prompt_options := fun _ => ""

/-- A single-key JSON object body. -/
def envHola : Env where
  isFile := fun _ => true
  readAudio := fun _ => some [1]
  attempts := fun _ => .resp 200 "OK" "\x7b\"text\": \"hola\"\x7d"
  prompt_options := fun _ => ""

/-- An HTTP 200 response whose body is not valid JSON. -/
def envBadJson : Env where
  isFile := fun _ => true
  readAudio := fun _ => some [1]
  attempts := fun _ => .resp 200 "OK" "not json"
  prompt_options := fun _ => ""

/-- Segments whose first text field is whitespace only. -/
def envBlankFirst : Env where
  isFile := fun _ => true
  readAudio := fun _ => some [1]
  attempts := fun _ => .resp 200 "OK"
    "\x7b\"segments\": [\x7b\"text\": \" \"\x7d, \x7b\"text\": \"hi\"\x7d]\x7d"
  prompt_options := fun _ => ""

/-- A non-200 response on every attempt. -/
def env429 : Env where
  isFile := fun _ => true
  readAudio := fun _ => some [1]
  attempts := fun _ => .resp 429 "Too Many Requests" "slow down"
  prompt_options := fun _ => ""

/-- An environment where every path exists and every read fails. -/
def envReadFail : Env where
  isFile := fun _ => true
  readAudio := fun _ => none
  attempts := fun _ => .exn
  prompt_options := fun _ => ""

/-- The trace of the timestamp example run. -/
def trTs : RunTrace :=
  ⟨⟨"[01:05.250]hi\n[00:00.000]bye", true, "200 OK"⟩, 1, [], 1, none⟩

/-! ## Basic list and string lemmas -/

theorem string_eta (s : String) : (⟨s.data⟩ : String) = s := by
  cases s
  rfl

theorem dropWhile_append_all {α} (p : α → Bool) :
    ∀ (l r : List α), (∀ c ∈ l, p c = true) → (l ++ r).dropWhile p = r.dropWhile p := by
  intro l r h
  induction l with
  | nil => rfl
  | cons c t ih =>
      rw [List.cons_append, List.dropWhile_cons, if_pos (h c (by simp))]
      exact ih (fun x hx => h x (by simp [hx]))

theorem takeWhile_append_all {α} (p : α → Bool) :
    ∀ (l r : List α), (∀ c ∈ l, p c = true) → (l ++ r).takeWhile p = l ++ r.takeWhile p := by
  intro l r h
  induction l with
  | nil => rfl
  | cons c t ih =>
      rw [List.cons_append, List.takeWhile_cons, if_pos (h c (by simp)), ih
        (fun x hx => h x (by simp [hx])), List.cons_append]

theorem takeWhile_cons_neg {α} (p : α → Bool) (c : α) (l : List α) (h : p c = false) :
    (c :: l).takeWhile p = [] := by
  rw [List.takeWhile_cons, if_neg (by simp [h])]

theorem dropWhile_cons_neg {α} (p : α → Bool) (c : α) (l : List α) (h : p c = false) :
    (c :: l).dropWhile p = c :: l := by
  rw [List.dropWhile_cons, if_neg (by simp [h])]

theorem skipWs_append_ws (w l : List Char) (h : ∀ c ∈ w, isJsonWs c = true) :
    skipWs (w ++ l) = skipWs l :=
  dropWhile_append_all _ w l h

theorem skipWs_cons_not (c : Char) (l : List Char) (h : isJsonWs c = false) :
    skipWs (c :: l) = c :: l :=
  dropWhile_cons_neg _ c l h

theorem padChars_ws : ∀ d, ∀ c ∈ padChars d, isJsonWs c = true := by
  intro d c hc
  have : c = ' ' := List.eq_of_mem_replicate hc
  subst this
  rfl

/-! ## Decimal digit lemmas -/

theorem digitVal_digitChar {d : Nat} (h : d < 10) : digitVal (digitChar d) = d := by
  interval_cases d <;> rfl

theorem isDigit_digitChar {d : Nat} (h : d < 10) : (digitChar d).isDigit = true := by
  interval_cases d <;> rfl

theorem natToCharsAux_digits :
    ∀ fuel n, ∀ c ∈ natToCharsAux fuel n, c.isDigit = true := by
  intro fuel
  induction fuel with
  | zero => intro n c hc; simp [natToCharsAux] at hc
  | succ fuel ih =>
      intro n c hc
      rw [natToCharsAux] at hc
      by_cases h0 : n = 0
      · simp [h0] at hc
      · rw [if_neg h0] at hc
        rcases List.mem_cons.mp hc with h | h
        · subst h; exact isDigit_digitChar (Nat.mod_lt n (by norm_num))
        · exact ih (n / 10) c h

theorem natToChars_digits : ∀ n, ∀ c ∈ natToChars n, c.isDigit = true := by
  intro n c hc
  rw [natToChars] at hc
  by_cases h0 : n = 0
  · simp [h0] at hc
    subst hc
    rfl
  · rw [if_neg h0, List.mem_reverse] at hc
    exact natToCharsAux_digits n n c hc

theorem natToChars_ne_nil (n : Nat) : natToChars n ≠ [] := by
  rw [natToChars]
  by_cases h0 : n = 0
  · simp [h0]
  · rw [if_neg h0]
    cases n with
    | zero => exact absurd rfl h0
    | succ k =>
        rw [natToCharsAux, if_neg h0]
        simp

theorem natFromChars_aux (fuel : Nat) : ∀ n a, n ≤ fuel →
    List.foldl (fun x c => 10 * x + digitVal c) a (natToCharsAux fuel n).reverse
      = a * 10 ^ (natToCharsAux fuel n).length + n := by
  induction fuel with
  | zero =>
      intro n a h
      interval_cases n
      simp [natToCharsAux]
  | succ fuel ih =>
      intro n a h
      by_cases h0 : n = 0
      · subst h0; simp [natToCharsAux]
      · rw [natToCharsAux, if_neg h0]
        have hlt : n / 10 < n := Nat.div_lt_self (Nat.pos_of_ne_zero h0) (by norm_num)
        have hfuel : n / 10 ≤ fuel := by omega
        rw [List.reverse_cons, List.foldl_append, ih (n / 10) a hfuel]
        have hdig : digitVal (digitChar (n % 10)) = n % 10 :=
          digitVal_digitChar (Nat.mod_lt n (by norm_num))
        simp only [List.foldl_cons, List.foldl_nil, List.length_cons, hdig]
        have hdm := Nat.div_add_mod n 10
        have hpow : (10 : Nat) ^ ((natToCharsAux fuel (n / 10)).length + 1)
            = 10 ^ (natToCharsAux fuel (n / 10)).length * 10 := pow_succ 10 _
        rw [hpow]
        set P : Nat := 10 ^ (natToCharsAux fuel (n / 10)).length with hP
        have : 10 * (a * P + n / 10) + n % 10 = a * (P * 10) + (10 * (n / 10) + n % 10) := by
          ring
        rw [this, hdm]

theorem natFromChars_natToChars (n : Nat) : natFromChars (natToChars n) = n := by
  rw [natToChars]
  by_cases h0 : n = 0
  · subst h0
    rfl
  · rw [if_neg h0]
    have := natFromChars_aux n n 0 le_rfl
    rw [natFromChars, this]
    simp

theorem natFromChars_replicate_zero (k : Nat) (l : List Char) :
    natFromChars (List.replicate k '0' ++ l) = natFromChars l := by
  induction k with
  | zero => rfl
  | succ k ih =>
      rw [List.replicate_succ, List.cons_append, natFromChars, List.foldl_cons]
      have : (10 * 0 + digitVal '0') = 0 := by rfl
      rw [this]
      exact ih

theorem natToCharsAux_length_le :
    ∀ fuel n e, n ≤ fuel → n < 10 ^ e → (natToCharsAux fuel n).length ≤ e := by
  intro fuel
  induction fuel with
  | zero =>
      intro n e h he
      interval_cases n
      simp [natToCharsAux]
  | succ fuel ih =>
      intro n e h he
      by_cases h0 : n = 0
      · simp [natToCharsAux, h0]
      · rw [natToCharsAux, if_neg h0]
        have hepos : e ≠ 0 := by
          intro he0
          rw [he0, pow_zero] at he
          omega
        obtain ⟨e1, rfl⟩ : ∃ e1, e = e1 + 1 := ⟨e - 1, by omega⟩
        have hlt : n / 10 < n := Nat.div_lt_self (Nat.pos_of_ne_zero h0) (by norm_num)
        have hdiv : n / 10 < 10 ^ e1 := by
          rw [Nat.div_lt_iff_lt_mul (by norm_num : (0:Nat) < 10)]
          calc n < 10 ^ (e1 + 1) := he
            _ = 10 ^ e1 * 10 := pow_succ 10 e1
        have := ih (n / 10) e1 (by omega) hdiv
        simp only [List.length_cons]
        omega

theorem natToChars_length_le {n e : Nat} (he : 1 ≤ e) (h : n < 10 ^ e) :
    (natToChars n).length ≤ e := by
  rw [natToChars]
  by_cases h0 : n = 0
  · simp [h0]
    omega
  · rw [if_neg h0, List.length_reverse]
    exact natToCharsAux_length_le n n e le_rfl h

/-! ## Number parsing round trip -/

/-- The first character of the remaining input cannot extend a numeral. -/
def numSafe : List Char → Prop
  | [] => True
  | c :: _ => c.isDigit = false ∧ c ≠ '.'

theorem splitSign_neg (t : List Char) : splitSign ('-' :: t) = (true, t) := rfl

theorem splitSign_not {c : Char} (t : List Char) (h : c ≠ '-') :
    splitSign (c :: t) = (false, c :: t) := by
  unfold splitSign
  split
  · next t' heq =>
      injection heq with h1 h2
      exact absurd h1 h
  · rfl

theorem splitDot_dot (t : List Char) : splitDot ('.' :: t) = (true, t) := rfl

theorem splitDot_not {c : Char} (t : List Char) (h : c ≠ '.') :
    splitDot (c :: t) = (false, c :: t) := by
  unfold splitDot
  split
  · next t' heq =>
      injection heq with h1 h2
      exact absurd h1 h
  · rfl

theorem splitDot_nil : splitDot [] = (false, []) := rfl

theorem digit_ne_minus {c : Char} (h : c.isDigit = true) : c ≠ '-' := by
  intro he
  subst he
  exact absurd h (by decide)

theorem digit_ne_dot {c : Char} (h : c.isDigit = true) : c ≠ '.' := by
  intro he
  subst he
  exact absurd h (by decide)

theorem takeWhile_digits_end (l r : List Char) (hl : ∀ c ∈ l, c.isDigit = true)
    (hr : ∀ c t, r = c :: t → c.isDigit = false) :
    (l ++ r).takeWhile Char.isDigit = l ∧ (l ++ r).dropWhile Char.isDigit = r := by
  constructor
  · rw [takeWhile_append_all _ l r hl]
    cases r with
    | nil => simp
    | cons c t => rw [takeWhile_cons_neg _ c t (hr c t rfl)]; simp
  · rw [dropWhile_append_all _ l r hl]
    cases r with
    | nil => rfl
    | cons c t => exact dropWhile_cons_neg _ c t (hr c t rfl)

theorem parseNatChars_exact (n : Nat) (r : List Char)
    (hr : ∀ c t, r = c :: t → c.isDigit = false) :
    parseNatChars (natToChars n ++ r) = some (n, (natToChars n).length, r) := by
  obtain ⟨htake, hdrop⟩ := takeWhile_digits_end (natToChars n) r (natToChars_digits n) hr
  have hemp : (natToChars n).isEmpty = false := by
    obtain ⟨c, t, hct⟩ := List.exists_cons_of_ne_nil (natToChars_ne_nil n)
    rw [hct]
    rfl
  rw [parseNatChars]
  simp only [htake, hdrop, hemp, Bool.false_eq_true, if_false, natFromChars_natToChars]

theorem parseNatChars_padded (k n : Nat) (r : List Char)
    (hr : ∀ c t, r = c :: t → c.isDigit = false) :
    parseNatChars ((List.replicate k '0' ++ natToChars n) ++ r)
      = some (n, k + (natToChars n).length, r) := by
  have hall : ∀ c ∈ List.replicate k '0' ++ natToChars n, c.isDigit = true := by
    intro c hc
    rcases List.mem_append.mp hc with h | h
    · rw [List.eq_of_mem_replicate h]; rfl
    · exact natToChars_digits n c h
  obtain ⟨htake, hdrop⟩ := takeWhile_digits_end _ r hall hr
  have hne : List.replicate k '0' ++ natToChars n ≠ [] := by
    obtain ⟨c, t, hct⟩ := List.exists_cons_of_ne_nil (natToChars_ne_nil n)
    rw [hct]
    simp
  have hemp : (List.replicate k '0' ++ natToChars n).isEmpty = false := by
    obtain ⟨c2, t2, hct2⟩ := List.exists_cons_of_ne_nil hne
    rw [hct2]
    rfl
  rw [parseNatChars]
  simp only [htake, hdrop, hemp, Bool.false_eq_true, if_false,
    natFromChars_replicate_zero, natFromChars_natToChars, List.length_append,
    List.length_replicate]

theorem parseNumber_numChars (m : Int) (e : Nat) (rest : List Char) (hsafe : numSafe rest) :
    parseNumber (numChars m e ++ rest) = some (Json.num m e, rest) := by
  have hrest : ∀ c t, rest = c :: t → c.isDigit = false := by
    intro c t h
    rw [h] at hsafe
    exact hsafe.1
  have hrestdot : ∀ c t, rest = c :: t → c ≠ '.' := by
    intro c t h
    rw [h] at hsafe
    exact hsafe.2
  have hdotsplit : splitDot rest = (false, rest) := by
    cases hr : rest with
    | nil => exact splitDot_nil
    | cons c t => exact splitDot_not t (hrestdot c t hr)
  by_cases hm : m < 0
  · rw [numChars, if_pos hm]
    by_cases he : e = 0
    · subst he
      rw [if_pos rfl]
      have hs : ('-' :: ([] : List Char)) ++ natToChars m.natAbs ++ rest
          = '-' :: (natToChars m.natAbs ++ rest) := by simp
      rw [hs, parseNumber]
      simp only [splitSign_neg, parseNatChars_exact m.natAbs rest hrest, hdotsplit,
        Bool.false_eq_true, if_false]
      have habs : ((m.natAbs : Int)) = -m := by omega
      simp [habs]
    · rw [if_neg he]
      set q := m.natAbs / 10 ^ e with hq
      set rm := m.natAbs % 10 ^ e with hrm
      have hs : (('-' :: ([] : List Char)) ++ (natToChars q ++ '.' ::
              (List.replicate (e - (natToChars rm).length) '0' ++ natToChars rm))) ++ rest
            = '-' :: (natToChars q ++ ('.' ::
              ((List.replicate (e - (natToChars rm).length) '0' ++ natToChars rm) ++ rest))) := by
        simp
      rw [hs, parseNumber]
      have hdotdigit : ∀ c t, ('.' ::
          ((List.replicate (e - (natToChars rm).length) '0' ++ natToChars rm) ++ rest)) = c :: t
          → c.isDigit = false := by
        intro c t h
        injection h with h1 h2
        rw [← h1]
        rfl
      simp only [splitSign_neg, parseNatChars_exact q _ hdotdigit, splitDot_dot, if_true,
        parseNatChars_padded _ rm rest hrest]
      have hlen : (natToChars rm).length ≤ e := by
        apply natToChars_length_le (by omega)
        exact Nat.mod_lt _ (Nat.pos_pow_of_pos e (by norm_num))
      have hfl : e - (natToChars rm).length + (natToChars rm).length = e := by omega
      rw [hfl]
      have hval : q * 10 ^ e + rm = m.natAbs := by
        rw [hq, hrm, Nat.mul_comm (m.natAbs / 10 ^ e) (10 ^ e)]
        exact Nat.div_add_mod _ _
      have habs : ((q * 10 ^ e + rm : Nat) : Int) = -m := by rw [hval]; omega
      simp [habs]
  · rw [numChars, if_neg hm]
    by_cases he : e = 0
    · subst he
      rw [if_pos rfl, List.nil_append]
      obtain ⟨c, t, hct⟩ := List.exists_cons_of_ne_nil (natToChars_ne_nil m.natAbs)
      have hcdigit : c.isDigit = true := natToChars_digits _ c (by rw [hct]; simp)
      have hsign : splitSign (natToChars m.natAbs ++ rest)
          = (false, natToChars m.natAbs ++ rest) := by
        rw [hct, List.cons_append, splitSign_not _ (digit_ne_minus hcdigit), ← List.cons_append,
          ← hct]
      rw [parseNumber]
      simp only [hsign, parseNatChars_exact m.natAbs rest hrest, hdotsplit,
        Bool.false_eq_true, if_false]
      have habs : ((m.natAbs : Int)) = m := by omega
      simp [habs]
    · rw [if_neg he, List.nil_append]
      set q := m.natAbs / 10 ^ e with hq
      set rm := m.natAbs % 10 ^ e with hrm
      have hs : (natToChars q ++ '.' ::
              (List.replicate (e - (natToChars rm).length) '0' ++ natToChars rm)) ++ rest
            = natToChars q ++ ('.' ::
              ((List.replicate (e - (natToChars rm).length) '0' ++ natToChars rm) ++ rest)) := by
        simp
      obtain ⟨c, t, hct⟩ := List.exists_cons_of_ne_nil (natToChars_ne_nil q)
      have hcdigit : c.isDigit = true := natToChars_digits _ c (by rw [hct]; simp)
      have hsign : splitSign (natToChars q ++ ('.' ::
              ((List.replicate (e - (natToChars rm).length) '0' ++ natToChars rm) ++ rest)))
          = (false, natToChars q ++ ('.' ::
              ((List.replicate (e - (natToChars rm).length) '0' ++ natToChars rm) ++ rest))) := by
        rw [hct, List.cons_append, splitSign_not _ (digit_ne_minus hcdigit), ← List.cons_append,
          ← hct]
      rw [hs, parseNumber]
      have hdotdigit : ∀ cc tt, ('.' ::
          ((List.replicate (e - (natToChars rm).length) '0' ++ natToChars rm) ++ rest)) = cc :: tt
          → cc.isDigit = false := by
        intro cc tt h
        injection h with h1 h2
        rw [← h1]
        rfl
      simp only [hsign, parseNatChars_exact q _ hdotdigit, splitDot_dot, if_true,
        parseNatChars_padded _ rm rest hrest]
      have hlen : (natToChars rm).length ≤ e := by
        apply natToChars_length_le (by omega)
        exact Nat.mod_lt _ (Nat.pos_pow_of_pos e (by norm_num))
      have hfl : e - (natToChars rm).length + (natToChars rm).length = e := by omega
      rw [hfl]
      have hval : q * 10 ^ e + rm = m.natAbs := by
        rw [hq, hrm, Nat.mul_comm (m.natAbs / 10 ^ e) (10 ^ e)]
        exact Nat.div_add_mod _ _
      have habs : ((q * 10 ^ e + rm : Nat) : Int) = m := by rw [hval]; omega
      simp [habs]

/-! ## String escape round trip -/

theorem hexVal_hexChar {v : Nat} (h : v < 16) : hexVal (hexChar v) = v := by
  interval_cases v <;> rfl

theorem isHexDigit_hexChar {v : Nat} (h : v < 16) : isHexDigit (hexChar v) = true := by
  interval_cases v <;> rfl

theorem parseStringBody_quote (rest : List Char) :
    parseStringBody ('"' :: rest) = some ([], rest) := by
  rw [parseStringBody.eq_def]
  dsimp only
  rw [if_pos rfl]

theorem parseStringBody_lit (c : Char) (X : List Char) (h1 : c ≠ '"') (h2 : c ≠ '\\') :
    parseStringBody (c :: X) = pcons c (parseStringBody X) := by
  rw [parseStringBody.eq_def]
  dsimp only
  rw [if_neg h1, if_neg h2]

theorem parseStringBody_bs (e : Char) (r : List Char) :
    parseStringBody ('\\' :: e :: r)
      = (if e = '"' then pcons '"' (parseStringBody r)
         else if e = '\\' then pcons '\\' (parseStringBody r)
         else if e = '/' then pcons '/' (parseStringBody r)
         else if e = 'n' then pcons '\n' (parseStringBody r)
         else if e = 't' then pcons '\t' (parseStringBody r)
         else if e = 'r' then pcons '\r' (parseStringBody r)
         else if e = 'b' then pcons (Char.ofNat 8) (parseStringBody r)
         else if e = 'f' then pcons (Char.ofNat 12) (parseStringBody r)
         else if e = 'u' then
           (match r with
            | h1 :: h2 :: h3 :: h4 :: r2 =>
              if isHexDigit h1 && isHexDigit h2 && isHexDigit h3 && isHexDigit h4 then
                pcons (Char.ofNat (((hexVal h1 * 16 + hexVal h2) * 16 + hexVal h3) * 16 + hexVal h4))
                  (parseStringBody r2)
              else none
            | _ => none)
         else none) := by
  rw [parseStringBody.eq_def]
  dsimp only
  rw [if_neg (show ¬('\\' = '"') from by decide), if_pos rfl]

theorem parseStringBody_esc :
    ∀ (l : List Char) (rest : List Char),
      parseStringBody (escChars l ++ '"' :: rest) = some (l, rest) := by
  intro l
  induction l with
  | nil =>
      intro rest
      rw [escChars, List.nil_append, parseStringBody_quote]
  | cons c tl ih =>
      intro rest
      rw [escChars, List.append_assoc]
      by_cases h1 : c = '"'
      · subst h1
        rw [show escChar '"' = ['\\', '"'] from rfl, List.cons_append, List.cons_append,
          List.nil_append, parseStringBody_bs]
        simp only [reduceIte]
        rw [ih rest]
        rfl
      · by_cases h2 : c = '\\'
        · subst h2
          rw [show escChar '\\' = ['\\', '\\'] from rfl, List.cons_append, List.cons_append,
            List.nil_append, parseStringBody_bs]
          rw [if_neg (show ¬('\\' = '"') from by decide), if_pos rfl, ih rest]
          rfl
        · by_cases h3 : c = '\n'
          · subst h3
            rw [show escChar '\n' = ['\\', 'n'] from rfl, List.cons_append, List.cons_append,
              List.nil_append, parseStringBody_bs]
            simp only [reduceIte]
            rw [ih rest]
            rfl
          · by_cases h4 : c = '\t'
            · subst h4
              rw [show escChar '\t' = ['\\', 't'] from rfl, List.cons_append, List.cons_append,
                List.nil_append, parseStringBody_bs]
              simp only [reduceIte]
              rw [ih rest]
              rfl
            · by_cases h5 : c = '\r'
              · subst h5
                rw [show escChar '\r' = ['\\', 'r'] from rfl, List.cons_append, List.cons_append,
                  List.nil_append, parseStringBody_bs]
                simp only [reduceIte]
                rw [ih rest]
                rfl
              · by_cases h6 : c = Char.ofNat 8
                · subst h6
                  rw [show escChar (Char.ofNat 8) = ['\\', 'b'] from rfl, List.cons_append,
                    List.cons_append, List.nil_append, parseStringBody_bs]
                  simp only [reduceIte]
                  rw [ih rest]
                  rfl
                · by_cases h7 : c = Char.ofNat 12
                  · subst h7
                    rw [show escChar (Char.ofNat 12) = ['\\', 'f'] from rfl, List.cons_append,
                      List.cons_append, List.nil_append, parseStringBody_bs]
                    simp only [reduceIte]
                    rw [ih rest]
                    rfl
                  · by_cases h8 : c.toNat < 32
                    · rw [escChar, if_neg h1, if_neg h2, if_neg h3, if_neg h4, if_neg h5,
                        if_neg h6, if_neg h7, if_pos h8]
                      have hhi : c.toNat / 16 < 16 := by omega
                      have hlo : c.toNat % 16 < 16 := Nat.mod_lt _ (by norm_num)
                      rw [List.cons_append, List.cons_append, List.cons_append, List.cons_append,
                        List.cons_append, List.cons_append, List.nil_append, parseStringBody_bs]
                      rw [if_neg (show ¬('u' = '"') from by decide),
                        if_neg (show ¬('u' = '\\') from by decide),
                        if_neg (show ¬('u' = '/') from by decide),
                        if_neg (show ¬('u' = 'n') from by decide),
                        if_neg (show ¬('u' = 't') from by decide),
                        if_neg (show ¬('u' = 'r') from by decide),
                        if_neg (show ¬('u' = 'b') from by decide),
                        if_neg (show ¬('u' = 'f') from by decide),
                        if_pos (rfl : 'u' = 'u')]
                      dsimp only
                      rw [if_pos (by
                        rw [isHexDigit_hexChar hhi, isHexDigit_hexChar hlo]
                        rfl)]
                      have hv : ((hexVal '0' * 16 + hexVal '0') * 16 + hexVal (hexChar (c.toNat / 16)))
                          * 16 + hexVal (hexChar (c.toNat % 16)) = c.toNat := by
                        rw [hexVal_hexChar hhi, hexVal_hexChar hlo]
                        have h0 : hexVal '0' = 0 := rfl
                        rw [h0]
                        omega
                      rw [hv, Char.ofNat_toNat, ih rest]
                      rfl
                    · rw [escChar, if_neg h1, if_neg h2, if_neg h3, if_neg h4, if_neg h5,
                        if_neg h6, if_neg h7, if_neg h8, List.singleton_append,
                        parseStringBody_lit c _ h1 h2, ih rest]
                      rfl

/-! ## Parser step lemmas -/

theorem allWs_singleton_nl : ∀ c ∈ ['\n'], isJsonWs c = true := by
  intro c hc
  simp at hc
  subst hc
  rfl

theorem allWs_nl_pad (d : Nat) : ∀ c ∈ '\n' :: padChars d, isJsonWs c = true := by
  intro c hc
  rcases List.mem_cons.mp hc with h | h
  · subst h; rfl
  · rw [List.eq_of_mem_replicate h]; rfl

theorem ws_not_digit {c : Char} (h : isJsonWs c = true) : c.isDigit = false ∧ c ≠ '.' := by
  rw [isJsonWs] at h
  simp only [Bool.or_eq_true, decide_eq_true_eq] at h
  rcases h with ((h | h) | h) | h <;> (subst h; exact ⟨rfl, by decide⟩)

theorem numSafe_ws_cons {w : List Char} (hw : ∀ c ∈ w, isJsonWs c = true) {b : Char}
    (hb : b.isDigit = false ∧ b ≠ '.') (rest : List Char) : numSafe (w ++ b :: rest) := by
  cases w with
  | nil => exact hb
  | cons c t =>
      have := ws_not_digit (hw c (by simp))
      exact this

theorem parseF_v_null (fuel : Nat) (r : List Char) :
    parseF (fuel+1) .v ('n' :: 'u' :: 'l' :: 'l' :: r) = some (Json.null, r) := by
  rw [parseF, skipWs_cons_not _ _ (by decide)]
  dsimp only
  rw [if_pos rfl]
  rfl

theorem parseF_v_true (fuel : Nat) (r : List Char) :
    parseF (fuel+1) .v ('t' :: 'r' :: 'u' :: 'e' :: r) = some (Json.jbool true, r) := by
  rw [parseF, skipWs_cons_not _ _ (by decide)]
  dsimp only
  rw [if_neg (show ¬('t' = 'n') from by decide), if_pos rfl]
  rfl

theorem parseF_v_false (fuel : Nat) (r : List Char) :
    parseF (fuel+1) .v ('f' :: 'a' :: 'l' :: 's' :: 'e' :: r) = some (Json.jbool false, r) := by
  rw [parseF, skipWs_cons_not _ _ (by decide)]
  dsimp only
  rw [if_neg (show ¬('f' = 'n') from by decide), if_neg (show ¬('f' = 't') from by decide),
    if_pos rfl]
  rfl

theorem parseF_v_string (fuel : Nat) (sd : List Char) (r : List Char) :
    parseF (fuel+1) .v ('"' :: (escChars sd ++ '"' :: r)) = some (Json.str ⟨sd⟩, r) := by
  rw [parseF, skipWs_cons_not _ _ (by decide)]
  dsimp only
  rw [if_neg (show ¬('"' = 'n') from by decide), if_neg (show ¬('"' = 't') from by decide),
    if_neg (show ¬('"' = 'f') from by decide), if_pos rfl]
  rw [parseStringBody_esc]

theorem isDigit_ne_of {c x : Char} (h : c.isDigit = true) (hx : x.isDigit = false) : c ≠ x := by
  intro he
  subst he
  rw [h] at hx
  exact absurd hx (by simp)

theorem digit_not_jsonWs {c : Char} (h : c.isDigit = true) : isJsonWs c = false := by
  cases hw : isJsonWs c with
  | false => rfl
  | true =>
      have := (ws_not_digit hw).1
      rw [h] at this
      exact absurd this (by simp)

theorem numChars_head (m : Int) (e : Nat) :
    ∃ c t, numChars m e = c :: t ∧ (c = '-' ∨ c.isDigit = true) := by
  rw [numChars]
  by_cases hm : m < 0
  · rw [if_pos hm]
    exact ⟨'-', _, rfl, Or.inl rfl⟩
  · rw [if_neg hm]
    by_cases he : e = 0
    · rw [if_pos he, List.nil_append]
      obtain ⟨c, t, hct⟩ := List.exists_cons_of_ne_nil (natToChars_ne_nil m.natAbs)
      exact ⟨c, t, hct, Or.inr (natToChars_digits _ c (by rw [hct]; simp))⟩
    · rw [if_neg he, List.nil_append]
      obtain ⟨c, t, hct⟩ := List.exists_cons_of_ne_nil (natToChars_ne_nil (m.natAbs / 10 ^ e))
      rw [hct, List.cons_append]
      exact ⟨c, _, rfl, Or.inr (natToChars_digits _ c (by rw [hct]; simp))⟩

theorem parseF_v_num (fuel : Nat) (m : Int) (e : Nat) (rest : List Char) (hsafe : numSafe rest) :
    parseF (fuel+1) .v (numChars m e ++ rest) = some (Json.num m e, rest) := by
  obtain ⟨c, t, hct, hc⟩ := numChars_head m e
  have hnotws : isJsonWs c = false := by
    rcases hc with h | h
    · subst h; rfl
    · exact digit_not_jsonWs h
  have hne : ∀ x : Char, x.isDigit = false → x ≠ '-' → c ≠ x := by
    intro x hx hxm
    rcases hc with h | h
    · intro he
      rw [← he] at hxm
      exact hxm h
    · exact isDigit_ne_of h hx
  rw [hct, List.cons_append, parseF, skipWs_cons_not _ _ hnotws]
  dsimp only
  rw [if_neg (hne 'n' (by decide) (by decide)), if_neg (hne 't' (by decide) (by decide)),
    if_neg (hne 'f' (by decide) (by decide)), if_neg (hne '"' (by decide) (by decide)),
    if_neg (hne '[' (by decide) (by decide)), if_neg (hne lbrace (by decide) (by decide))]
  have hguard : (c = '-' || c.isDigit) = true := by
    rcases hc with h | h
    · subst h; rfl
    · rw [h]; simp
  rw [if_pos hguard, ← List.cons_append, ← hct, parseNumber_numChars m e rest hsafe]

theorem parseF_v_arrNil (fuel : Nat) (X r : List Char) (hX : skipWs X = ']' :: r) :
    parseF (fuel+1) .v ('[' :: X) = some (Json.arr [], r) := by
  rw [parseF, skipWs_cons_not _ _ (by decide)]
  dsimp only
  rw [if_neg (show ¬('[' = 'n') from by decide), if_neg (show ¬('[' = 't') from by decide),
    if_neg (show ¬('[' = 'f') from by decide), if_neg (show ¬('[' = '"') from by decide),
    if_pos rfl, hX]
  split
  · next r2 heq =>
      injection heq with h1 h2
      rw [h2]
  · next hno =>
      exact absurd rfl (hno r)

theorem parseF_v_arrCons (fuel : Nat) (X r : List Char) (c : Char) (hX : skipWs X = c :: r)
    (hc : c ≠ ']') :
    parseF (fuel+1) .v ('[' :: X)
      = (match parseF fuel .arrItems X with
         | some (vs, rr) => some (Json.arr vs, rr)
         | none => none) := by
  rw [parseF, skipWs_cons_not _ _ (by decide)]
  dsimp only
  rw [if_neg (show ¬('[' = 'n') from by decide), if_neg (show ¬('[' = 't') from by decide),
    if_neg (show ¬('[' = 'f') from by decide), if_neg (show ¬('[' = '"') from by decide),
    if_pos rfl, hX]
  split
  · next r2 heq =>
      injection heq with h1 h2
      exact absurd h1 hc
  · rfl

theorem parseF_v_objNil (fuel : Nat) (X r : List Char) (hX : skipWs X = rbrace :: r) :
    parseF (fuel+1) .v (lbrace :: X) = some (Json.obj [], r) := by
  rw [parseF, skipWs_cons_not _ _ (by decide)]
  dsimp only
  rw [if_neg (show ¬(lbrace = 'n') from by decide), if_neg (show ¬(lbrace = 't') from by decide),
    if_neg (show ¬(lbrace = 'f') from by decide), if_neg (show ¬(lbrace = '"') from by decide),
    if_neg (show ¬(lbrace = '[') from by decide), if_pos rfl, hX]
  dsimp only
  rw [if_pos rfl]

theorem parseF_v_objCons (fuel : Nat) (X r : List Char) (c : Char) (hX : skipWs X = c :: r)
    (hc : c ≠ rbrace) :
    parseF (fuel+1) .v (lbrace :: X)
      = (match parseF fuel .objItems X with
         | some (fs, rr) => some (Json.obj fs, rr)
         | none => none) := by
  rw [parseF, skipWs_cons_not _ _ (by decide)]
  dsimp only
  rw [if_neg (show ¬(lbrace = 'n') from by decide), if_neg (show ¬(lbrace = 't') from by decide),
    if_neg (show ¬(lbrace = 'f') from by decide), if_neg (show ¬(lbrace = '"') from by decide),
    if_neg (show ¬(lbrace = '[') from by decide), if_pos rfl, hX]
  dsimp only
  rw [if_neg hc]

theorem parseF_arrItems_eq (fuel : Nat) (l : List Char) :
    parseF (fuel+1) .arrItems l
      = (match parseF fuel .v l with
         | none => none
         | some (v, r) =>
           match skipWs r with
           | ',' :: r2 =>
             match parseF fuel .arrItems r2 with
             | none => none
             | some (vs, r3) => some (v :: vs, r3)
           | ']' :: r2 => some ([v], r2)
           | _ => none) := by
  rw [parseF]

theorem parseF_objItems_eq (fuel : Nat) (l : List Char) :
    parseF (fuel+1) .objItems l
      = (match skipWs l with
         | '"' :: r1 =>
           match parseStringBody r1 with
           | none => none
           | some (k, r2) =>
             match skipWs r2 with
             | ':' :: r3 =>
               match parseF fuel .v r3 with
               | none => none
               | some (v, r4) =>
                 match skipWs r4 with
                 | ',' :: r5 =>
                   match parseF fuel .objItems r5 with
                   | none => none
                   | some (fs, r6) => some ((⟨k⟩, v) :: fs, r6)
                 | x :: r5 => if x = rbrace then some ([(⟨k⟩, v)], r5) else none
                 | [] => none
             | _ => none
         | _ => none) := by
  rw [parseF]

theorem parseF_v_ws (fuel : Nat) (w l : List Char) (hw : ∀ c ∈ w, isJsonWs c = true) :
    parseF fuel .v (w ++ l) = parseF fuel .v l := by
  cases fuel with
  | zero => rfl
  | succ fuel =>
      rw [parseF, parseF, skipWs_append_ws w l hw]

theorem jsize_pos : ∀ j, 1 ≤ jsize j := by
  intro j
  cases j <;> simp [jsize] <;> omega

theorem jsizeList_pos (x : Json) (xs : List Json) : 1 ≤ jsizeList (x :: xs) := by
  rw [jsizeList]
  have := jsize_pos x
  omega

theorem jsizeFields_pos (f : String × Json) (fs : List (String × Json)) :
    1 ≤ jsizeFields (f :: fs) := by
  obtain ⟨k, v⟩ := f
  rw [jsizeFields]
  have := jsize_pos v
  omega

theorem dumpsAt_head (d : Nat) (j : Json) :
    ∃ c t, dumpsAt d j = c :: t ∧ isJsonWs c = false ∧ c ≠ ']' ∧ c ≠ rbrace := by
  cases j with
  | null =>
      refine ⟨'n', ['u', 'l', 'l'], ?_, rfl, by decide, by decide⟩
      simp [dumpsAt]
  | jbool b =>
      cases b with
      | true =>
          refine ⟨'t', ['r', 'u', 'e'], ?_, rfl, by decide, by decide⟩
          simp [dumpsAt]
      | false =>
          refine ⟨'f', ['a', 'l', 's', 'e'], ?_, rfl, by decide, by decide⟩
          simp [dumpsAt]
  | num m e =>
      obtain ⟨c, t, hct, hc⟩ := numChars_head m e
      refine ⟨c, t, by simp [dumpsAt, hct], ?_, ?_, ?_⟩
      · rcases hc with h | h
        · subst h; rfl
        · exact digit_not_jsonWs h
      · rcases hc with h | h
        · subst h; decide
        · exact isDigit_ne_of h (by decide)
      · rcases hc with h | h
        · subst h; decide
        · exact isDigit_ne_of h (by decide)
  | str s =>
      refine ⟨'"', escChars s.data ++ ['"'], ?_, rfl, by decide, by decide⟩
      simp [dumpsAt, strChars]
  | arr xs =>
      cases xs with
      | nil =>
          refine ⟨'[', [']'], ?_, rfl, by decide, by decide⟩
          simp [dumpsAt]
      | cons x xs =>
          refine ⟨'[', '\n' :: dumpItems (d+1) x xs ++ '\n' :: padChars d ++ [']'], ?_, rfl,
            by decide, by decide⟩
          simp [dumpsAt]
  | obj fs =>
      cases fs with
      | nil =>
          refine ⟨lbrace, [rbrace], ?_, rfl, by decide, by decide⟩
          simp [dumpsAt]
      | cons f fs =>
          refine ⟨lbrace, '\n' :: dumpFields (d+1) f fs ++ '\n' :: padChars d ++ [rbrace], ?_,
            rfl, by decide, by decide⟩
          simp [dumpsAt]

theorem dumpItems_split (d : Nat) (x : Json) (xs : List Json) :
    ∃ T2, dumpItems d x xs = padChars d ++ (dumpsAt d x ++ T2) := by
  cases xs with
  | nil => exact ⟨[], by simp [dumpItems]⟩
  | cons y ys => exact ⟨',' :: '\n' :: dumpItems d y ys, by simp [dumpItems]⟩

theorem skipWs_items_head (d : Nat) (x : Json) (xs : List Json) (T : List Char) :
    ∃ c r, skipWs ('\n' :: (dumpItems d x xs ++ T)) = c :: r ∧ c ≠ ']' ∧ c ≠ rbrace := by
  obtain ⟨T2, hT2⟩ := dumpItems_split d x xs
  obtain ⟨c, t, hct, hcw, hcb, hcr⟩ := dumpsAt_head d x
  refine ⟨c, t ++ (T2 ++ T), ?_, hcb, hcr⟩
  rw [hT2]
  have hsh : '\n' :: ((padChars d ++ (dumpsAt d x ++ T2)) ++ T)
      = ('\n' :: padChars d) ++ (dumpsAt d x ++ (T2 ++ T)) := by simp
  rw [hsh, skipWs_append_ws _ _ (allWs_nl_pad d), hct, List.cons_append,
    skipWs_cons_not _ _ hcw]

theorem skipWs_fields_head (d : Nat) (f : String × Json) (fs : List (String × Json))
    (T : List Char) :
    ∃ r, skipWs ('\n' :: (dumpFields d f fs ++ T)) = '"' :: r := by
  obtain ⟨k, v⟩ := f
  have hsplit : ∃ T2, dumpFields d (k, v) fs
      = padChars d ++ ('"' :: (escChars k.data ++ ('"' :: T2))) := by
    cases fs with
    | nil =>
        refine ⟨':' :: ' ' :: dumpsAt d v, ?_⟩
        simp [dumpFields, strChars]
    | cons g gs =>
        refine ⟨':' :: ' ' :: (dumpsAt d v ++ ',' :: '\n' :: dumpFields d g gs), ?_⟩
        simp [dumpFields, strChars]
  obtain ⟨T2, hT2⟩ := hsplit
  refine ⟨escChars k.data ++ ('"' :: T2) ++ T, ?_⟩
  rw [hT2]
  have hsh : '\n' :: ((padChars d ++ ('"' :: (escChars k.data ++ ('"' :: T2)))) ++ T)
      = ('\n' :: padChars d) ++ ('"' :: ((escChars k.data ++ ('"' :: T2)) ++ T)) := by simp
  rw [hsh, skipWs_append_ws _ _ (allWs_nl_pad d), skipWs_cons_not _ _ (by decide)]

theorem parse_dumps_mutual : ∀ fuel : Nat,
    (∀ j d rest, jsize j ≤ fuel → numSafe rest →
      parseF fuel .v (dumpsAt d j ++ rest) = some (j, rest)) ∧
    (∀ d x xs w1 w2 rest, (∀ c ∈ w1, isJsonWs c = true) → (∀ c ∈ w2, isJsonWs c = true) →
      jsizeList (x :: xs) + 1 ≤ fuel →
      parseF fuel .arrItems (w1 ++ (dumpItems d x xs ++ (w2 ++ ']' :: rest)))
        = some (x :: xs, rest)) ∧
    (∀ d f fs w1 w2 rest, (∀ c ∈ w1, isJsonWs c = true) → (∀ c ∈ w2, isJsonWs c = true) →
      jsizeFields (f :: fs) + 1 ≤ fuel →
      parseF fuel .objItems (w1 ++ (dumpFields d f fs ++ (w2 ++ rbrace :: rest)))
        = some (f :: fs, rest)) := by
  intro fuel
  induction fuel with
  | zero =>
      refine ⟨fun j d rest hsz _ => absurd hsz (by have := jsize_pos j; omega),
        fun d x xs w1 w2 rest _ _ hsz => absurd hsz (by omega),
        fun d f fs w1 w2 rest _ _ hsz => absurd hsz (by omega)⟩
  | succ fuel ih =>
      obtain ⟨ihP, ihQ, ihR⟩ := ih
      refine ⟨?_, ?_, ?_⟩
      · -- values
        intro j d rest hsz hsafe
        cases j with
        | null =>
            have hsh : dumpsAt d Json.null ++ rest = 'n' :: 'u' :: 'l' :: 'l' :: rest := by
              simp [dumpsAt]
            rw [hsh, parseF_v_null]
        | jbool b =>
            cases b with
            | true =>
                have hsh : dumpsAt d (Json.jbool true) ++ rest
                    = 't' :: 'r' :: 'u' :: 'e' :: rest := by simp [dumpsAt]
                rw [hsh, parseF_v_true]
            | false =>
                have hsh : dumpsAt d (Json.jbool false) ++ rest
                    = 'f' :: 'a' :: 'l' :: 's' :: 'e' :: rest := by simp [dumpsAt]
                rw [hsh, parseF_v_false]
        | num m e =>
            have hsh : dumpsAt d (Json.num m e) ++ rest = numChars m e ++ rest := by
              simp [dumpsAt]
            rw [hsh, parseF_v_num fuel m e rest hsafe]
        | str s =>
            have hsh : dumpsAt d (Json.str s) ++ rest
                = '"' :: (escChars s.data ++ '"' :: rest) := by
              simp [dumpsAt, strChars]
            rw [hsh, parseF_v_string, string_eta]
        | arr xs =>
            cases xs with
            | nil =>
                have hsh : dumpsAt d (Json.arr []) ++ rest = '[' :: (']' :: rest) := by
                  simp [dumpsAt]
                rw [hsh, parseF_v_arrNil fuel _ rest (skipWs_cons_not _ _ (by decide))]
            | cons x xs =>
                have hsh : dumpsAt d (Json.arr (x :: xs)) ++ rest
                    = '[' :: ('\n' :: (dumpItems (d+1) x xs
                        ++ (('\n' :: padChars d) ++ (']' :: rest)))) := by
                  simp [dumpsAt]
                obtain ⟨c, r, hskip, hcb, _⟩ :=
                  skipWs_items_head (d+1) x xs (('\n' :: padChars d) ++ (']' :: rest))
                rw [hsh, parseF_v_arrCons fuel _ r c hskip hcb]
                have hq := ihQ (d+1) x xs ['\n'] ('\n' :: padChars d) rest
                  allWs_singleton_nl (allWs_nl_pad d) (by simp [jsize] at hsz; omega)
                rw [List.singleton_append] at hq
                rw [hq]
        | obj fs =>
            cases fs with
            | nil =>
                have hsh : dumpsAt d (Json.obj []) ++ rest = lbrace :: (rbrace :: rest) := by
                  simp [dumpsAt]
                rw [hsh, parseF_v_objNil fuel _ rest (skipWs_cons_not _ _ (by decide))]
            | cons f fs =>
                have hsh : dumpsAt d (Json.obj (f :: fs)) ++ rest
                    = lbrace :: ('\n' :: (dumpFields (d+1) f fs
                        ++ (('\n' :: padChars d) ++ (rbrace :: rest)))) := by
                  simp [dumpsAt]
                obtain ⟨r, hskip⟩ :=
                  skipWs_fields_head (d+1) f fs (('\n' :: padChars d) ++ (rbrace :: rest))
                rw [hsh, parseF_v_objCons fuel _ r '"' hskip (by decide)]
                have hr := ihR (d+1) f fs ['\n'] ('\n' :: padChars d) rest
                  allWs_singleton_nl (allWs_nl_pad d) (by simp [jsize] at hsz; omega)
                rw [List.singleton_append] at hr
                rw [hr]
      · -- array items
        intro d x xs w1 w2 rest hw1 hw2 hsz
        rw [parseF_arrItems_eq]
        have hwpad : ∀ c ∈ w1 ++ padChars d, isJsonWs c = true := by
          intro c hc
          rcases List.mem_append.mp hc with h | h
          · exact hw1 c h
          · exact padChars_ws d c h
        cases xs with
        | nil =>
            have hsh : w1 ++ (dumpItems d x [] ++ (w2 ++ ']' :: rest))
                = (w1 ++ padChars d) ++ (dumpsAt d x ++ (w2 ++ ']' :: rest)) := by
              simp [dumpItems]
            rw [hsh, parseF_v_ws fuel _ _ hwpad,
              ihP x d (w2 ++ ']' :: rest)
                (by rw [jsizeList, jsizeList] at hsz; omega)
                (numSafe_ws_cons hw2 (by constructor <;> decide) rest)]
            dsimp only
            rw [skipWs_append_ws _ _ hw2, skipWs_cons_not _ _ (by decide)]
            split
            · next r2 heq =>
                injection heq with h1 h2
                exact absurd h1 (by decide)
            · next r2 heq =>
                injection heq with h1 h2
                rw [h2]
            · next h1 h2 =>
                exact absurd rfl (h2 rest)
        | cons y ys =>
            have hsh : w1 ++ (dumpItems d x (y :: ys) ++ (w2 ++ ']' :: rest))
                = (w1 ++ padChars d) ++ (dumpsAt d x
                    ++ (',' :: ('\n' :: (dumpItems d y ys ++ (w2 ++ ']' :: rest))))) := by
              simp [dumpItems]
            have hszy := jsizeList_pos y ys
            have hszx := jsize_pos x
            rw [hsh, parseF_v_ws fuel _ _ hwpad,
              ihP x d _ (by rw [jsizeList] at hsz; omega) (by constructor <;> decide)]
            dsimp only
            rw [skipWs_cons_not _ _ (by decide)]
            split
            · next r2 heq =>
                injection heq with h1 h2
                have hq := ihQ d y ys ['\n'] w2 rest allWs_singleton_nl hw2
                  (by rw [jsizeList] at hsz; omega)
                rw [List.singleton_append] at hq
                rw [← h2, hq]
            · next r2 heq =>
                injection heq with h1 h2
                exact absurd h1 (by decide)
            · next h1 h2 =>
                exact absurd rfl (h1 ('\n' :: (dumpItems d y ys ++ (w2 ++ ']' :: rest))))
      · -- object fields
        intro d f fs w1 w2 rest hw1 hw2 hsz
        obtain ⟨k, v⟩ := f
        rw [parseF_objItems_eq]
        have hwpad : ∀ c ∈ w1 ++ padChars d, isJsonWs c = true := by
          intro c hc
          rcases List.mem_append.mp hc with h | h
          · exact hw1 c h
          · exact padChars_ws d c h
        cases fs with
        | nil =>
            have hsh : w1 ++ (dumpFields d (k, v) [] ++ (w2 ++ rbrace :: rest))
                = (w1 ++ padChars d) ++ ('"' :: (escChars k.data
                    ++ ('"' :: (':' :: (' ' :: (dumpsAt d v ++ (w2 ++ rbrace :: rest)))))))
                := by
              simp [dumpFields, strChars]
            rw [hsh, skipWs_append_ws _ _ hwpad, skipWs_cons_not _ _ (by decide)]
            split
            · next r1 heq =>
                injection heq with h1 h2
                subst h2
                rw [parseStringBody_esc]
                dsimp only
                rw [skipWs_cons_not _ _ (by decide)]
                split
                · next r3 heq3 =>
                    injection heq3 with h3 h4
                    subst h4
                    have hsv : parseF fuel .v (' ' :: (dumpsAt d v ++ (w2 ++ rbrace :: rest)))
                        = some (v, w2 ++ rbrace :: rest) := by
                      rw [show (' ' :: (dumpsAt d v ++ (w2 ++ rbrace :: rest)))
                          = [' '] ++ (dumpsAt d v ++ (w2 ++ rbrace :: rest)) from rfl,
                        parseF_v_ws fuel _ _ (by intro c hc; simp at hc; subst hc; rfl),
                        ihP v d (w2 ++ rbrace :: rest)
                          (by rw [jsizeFields, jsizeFields] at hsz; omega)
                          (numSafe_ws_cons hw2 (by constructor <;> decide) rest)]
                    rw [hsv]
                    dsimp only
                    rw [skipWs_append_ws _ _ hw2, skipWs_cons_not _ _ (by decide)]
                    split
                    · next r5 heq5 =>
                        injection heq5 with h5 h6
                        exact absurd h5 (by decide)
                    · next xx r5 hne heq5 =>
                        injection heq5 with h5 h6
                        rw [if_pos h5.symm, ← h6, string_eta]
                    · next heq5 =>
                        exact absurd heq5 (by simp)
                · next hno => exact absurd rfl (hno _)
            · next hno => exact absurd rfl (hno _)
        | cons g gs =>
            have hsh : w1 ++ (dumpFields d (k, v) (g :: gs) ++ (w2 ++ rbrace :: rest))
                = (w1 ++ padChars d) ++ ('"' :: (escChars k.data
                    ++ ('"' :: (':' :: (' ' :: (dumpsAt d v
                      ++ (',' :: ('\n' :: (dumpFields d g gs ++ (w2 ++ rbrace :: rest)))))))))) := by
              simp [dumpFields, strChars]
            rw [hsh, skipWs_append_ws _ _ hwpad, skipWs_cons_not _ _ (by decide)]
            split
            · next r1 heq =>
                injection heq with h1 h2
                subst h2
                rw [parseStringBody_esc]
                dsimp only
                rw [skipWs_cons_not _ _ (by decide)]
                split
                · next r3 heq3 =>
                    injection heq3 with h3 h4
                    subst h4
                    have hgpos := jsizeFields_pos g gs
                    have hvpos := jsize_pos v
                    have hsv : parseF fuel .v (' ' :: (dumpsAt d v
                        ++ (',' :: ('\n' :: (dumpFields d g gs ++ (w2 ++ rbrace :: rest))))))
                        = some (v, ',' :: ('\n' :: (dumpFields d g gs
                            ++ (w2 ++ rbrace :: rest)))) := by
                      rw [show (' ' :: (dumpsAt d v
                          ++ (',' :: ('\n' :: (dumpFields d g gs ++ (w2 ++ rbrace :: rest))))))
                          = [' '] ++ (dumpsAt d v
                            ++ (',' :: ('\n' :: (dumpFields d g gs
                              ++ (w2 ++ rbrace :: rest))))) from rfl,
                        parseF_v_ws fuel _ _ (by intro c hc; simp at hc; subst hc; rfl),
                        ihP v d _ (by rw [jsizeFields] at hsz; omega)
                          (by constructor <;> decide)]
                    rw [hsv]
                    dsimp only
                    rw [skipWs_cons_not _ _ (by decide)]
                    split
                    · next r5 heq5 =>
                        injection heq5 with h5 h6
                        have hr := ihR d g gs ['\n'] w2 rest allWs_singleton_nl hw2
                          (by rw [jsizeFields] at hsz; omega)
                        rw [List.singleton_append] at hr
                        rw [← h6, hr, string_eta]
                    · next xx r5 hne heq5 =>
                        injection heq5 with h5 h6
                        exact absurd h5.symm hne
                    · next heq5 =>
                        exact absurd heq5 (by simp)
                · next hno => exact absurd rfl (hno _)
            · next hno => exact absurd rfl (hno _)

theorem jsize_le_dumps_length : ∀ n : Nat,
    (∀ j d, jsize j ≤ n → jsize j ≤ (dumpsAt d j).length) ∧
    (∀ d x xs, jsizeList (x :: xs) + 1 ≤ n → jsizeList (x :: xs) ≤ (dumpItems d x xs).length) ∧
    (∀ d f fs, jsizeFields (f :: fs) + 1 ≤ n →
      jsizeFields (f :: fs) ≤ (dumpFields d f fs).length) := by
  intro n
  induction n with
  | zero =>
      refine ⟨fun j d hsz => absurd hsz (by have := jsize_pos j; omega),
        fun d x xs hsz => absurd hsz (by omega),
        fun d f fs hsz => absurd hsz (by omega)⟩
  | succ n ih =>
      obtain ⟨ihA, ihB, ihC⟩ := ih
      refine ⟨?_, ?_, ?_⟩
      · intro j d hsz
        cases j with
        | null => simp [jsize, dumpsAt]
        | jbool b => cases b <;> simp [jsize, dumpsAt]
        | num m e =>
            rw [jsize]
            obtain ⟨c, t, hct, _⟩ := numChars_head m e
            simp [dumpsAt, hct]
        | str s => simp [jsize, dumpsAt, strChars]
        | arr xs =>
            cases xs with
            | nil => simp [jsize, jsizeList, dumpsAt]
            | cons x xs =>
                have hb := ihB (d+1) x xs (by simp [jsize] at hsz; omega)
                simp [jsize, dumpsAt]
                omega
        | obj fs =>
            cases fs with
            | nil => simp [jsize, jsizeFields, dumpsAt]
            | cons f fs =>
                have hc := ihC (d+1) f fs (by simp [jsize] at hsz; omega)
                simp [jsize, dumpsAt]
                omega
      · intro d x xs hsz
        cases xs with
        | nil =>
            have ha := ihA x d (by rw [jsizeList, jsizeList] at hsz; omega)
            simp [jsizeList, dumpItems]
            omega
        | cons y ys =>
            have hy := jsizeList_pos y ys
            have hx := jsize_pos x
            have ha := ihA x d (by rw [jsizeList] at hsz; omega)
            have hb := ihB d y ys (by rw [jsizeList] at hsz; omega)
            simp [jsizeList, dumpItems]
            rw [jsizeList] at hb
            omega
      · intro d f fs hsz
        obtain ⟨k, v⟩ := f
        cases fs with
        | nil =>
            have ha := ihA v d (by rw [jsizeFields, jsizeFields] at hsz; omega)
            simp [jsizeFields, dumpFields]
            omega
        | cons g gs =>
            have hg := jsizeFields_pos g gs
            have hv := jsize_pos v
            have ha := ihA v d (by rw [jsizeFields] at hsz; omega)
            have hc := ihC d g gs (by rw [jsizeFields] at hsz; omega)
            simp [jsizeFields, dumpFields]
            omega

/-- The JSON round trip: re-parsing the output of json.dumps(x, indent=4)
recovers x. -/
theorem loads_dumps (j : Json) : loads (dumps j) = some j := by
  have hlen := (jsize_le_dumps_length (jsize j)).1 j 0 le_rfl
  have hP := (parse_dumps_mutual ((dumpsAt 0 j).length + 1)).1 j 0 []
    (by omega) trivial
  rw [List.append_nil] at hP
  rw [loads, dumps]
  have hdata : (⟨dumpsAt 0 j⟩ : String).data = dumpsAt 0 j := rfl
  rw [hdata, hP]
  rfl

/-! ## Python float arithmetic versus exact rational arithmetic -/

theorem int_ediv_ediv (m : Int) {a b : Int} (ha : 0 < a) (hb : 0 < b) :
    m / a / b = m / (a * b) := by
  have h1 : ∀ k : Int, k ≤ m / a / b ↔ k ≤ m / (a * b) := by
    intro k
    rw [Int.le_ediv_iff_mul_le hb, Int.le_ediv_iff_mul_le ha,
      Int.le_ediv_iff_mul_le (mul_pos ha hb)]
    constructor
    · intro h
      calc k * (a * b) = k * b * a := by ring
        _ ≤ m := h
    · intro h
      calc k * b * a = k * (a * b) := by ring
        _ ≤ m := h
  exact le_antisymm ((h1 _).mp le_rfl) ((h1 _).mpr le_rfl)

theorem int_ediv_eq_floor (m : Int) (N : Nat) :
    m / (N : Int) = ⌊(m : ℚ) / (N : ℚ)⌋ := by
  rw [show ((N : Nat) : ℚ) = (((N : Nat) : ℤ) : ℚ) by push_cast; ring]
  rw [show (((N : Nat) : ℤ) : ℚ) = ((N : Nat) : ℚ) by push_cast; ring]
  exact (Rat.floor_intCast_div_natCast m N).symm

theorem int_ediv_eq_floor10 (m : Int) (e : Nat) :
    m / ((10 ^ e : Nat) : Int) = ⌊(m : ℚ) / 10 ^ e⌋ := by
  rw [int_ediv_eq_floor m (10 ^ e)]
  congr 1
  push_cast
  ring

/-! ## String and strip lemmas -/

theorem pyStrip_eq_pyRstrip (s : String) (h : ∀ c, s.data.head? = some c → isPyWs c = false) :
    pyStrip s = pyRstrip s := by
  cases hd : s.data with
  | nil => simp [pyStrip, pyRstrip, stripL, rstripL, hd]
  | cons c t =>
    have hc := h c (by rw [hd]; rfl)
    simp [pyStrip, pyRstrip, stripL, hd, List.dropWhile, hc]

theorem lbChunk_spec (t : String) :
    lbChunk (mkTextSegment t) = .ok (pyStrip t ++ "\n") := rfl

theorem lbText_spec (texts : List String) :
    lbText (texts.map mkTextSegment)
      = .ok (catStrings (texts.map (fun t => pyStrip t ++ "\n"))) := by
  induction texts with
  | nil => rfl
  | cons t ts ih =>
    simp only [List.map_cons, lbText, lbChunk_spec, ih]
    rfl

/-! ## shapeResponse, branch by branch -/

theorem shapeResponse_text (body : String) :
    shapeResponse "text" "text" body = .ok (some ⟨body, true, "200 OK"⟩) := by
  rw [shapeResponse]
  rw [if_pos rfl, if_pos rfl]

theorem shapeResponse_parseFail (rf : String) (body : String)
    (hrf : rf = "json" ∨ rf = "verbose_json") (hb : loads body = none) :
    shapeResponse rf rf body
      = .ok (some ⟨"Error parsing JSON response.", false, "200 OK but failed to parse JSON"⟩) := by
  rcases hrf with h | h <;> subst h <;>
    · rw [shapeResponse]
      rw [if_neg (by decide), if_pos (by simp), hb]

theorem shapeResponse_json (rf : String) (body : String) (j : Json)
    (hrf : rf = "json" ∨ rf = "verbose_json") (hb : loads body = some j) :
    shapeResponse rf rf body = .ok (some ⟨dumps j, true, "200 OK"⟩) := by
  rcases hrf with h | h <;> subst h
  · rw [shapeResponse]
    rw [if_neg (by decide), if_pos (by simp), hb]
    dsimp only
    rw [if_pos rfl]
  · rw [shapeResponse]
    rw [if_neg (by decide), if_pos (by simp), hb]
    dsimp only
    rw [if_neg (by decide), if_pos rfl]

theorem shapeResponse_ts (body : String) (j : Json) (hb : loads body = some j) :
    shapeResponse "text_with_timestamps" "verbose_json" body
      = (do
          let segmentsJ ← pyDictGet j "segments" (Json.arr [])
          let segments ← pyIter segmentsJ
          let translation_text ← tsText segments
          Except.ok (some ⟨pyStrip translation_text, true, "200 OK"⟩)) := by
  rw [shapeResponse]
  rw [if_neg (by decide), if_pos (by simp), hb]
  dsimp only
  rw [if_neg (by decide), if_neg (by decide), if_pos rfl]

theorem shapeResponse_lb (body : String) (j : Json) (hb : loads body = some j) :
    shapeResponse "text_with_linebreaks" "verbose_json" body
      = (do
          let segmentsJ ← pyDictGet j "segments" (Json.arr [])
          let segments ← pyIter segmentsJ
          let translation_text ← lbText segments
          Except.ok (some ⟨pyStrip translation_text, true, "200 OK"⟩)) := by
  rw [shapeResponse]
  rw [if_neg (by decide), if_pos (by simp), hb]
  dsimp only
  rw [if_neg (by decide), if_neg (by decide), if_neg (by decide), if_pos rfl]

/-! ## The handler up to the loop, and the loop itself -/

theorem process_reaches_loop (env : Env) (model fp preset ui rf : String)
    (temp : PyFloat) (n : Nat) (af : String) (bs : List Nat)
    (hfile : env.isFile fp = true) (hext : extOf fp ∈ SUPPORTED_AUDIO_FORMATS)
    (hread : env.readAudio fp = some bs) (haf : apiFormatOf rf = some af) :
    process_translation_request env model fp preset ui rf temp n
      = .ok ⟨(attemptLoop env.attempts rf af n 0).1,
             (attemptLoop env.attempts rf af n 0).2.1,
             (attemptLoop env.attempts rf af n 0).2.2, 1,
             promptDataField (preparePrompt env.prompt_options preset ui)⟩ := by
  rw [process_translation_request, hfile]
  rw [if_neg (by decide)]
  dsimp only
  rw [if_pos hext, hread]
  dsimp only
  rw [haf]

theorem attemptLoop_calls_le (attempts : Nat → HttpOutcome) (rf af : String) :
    ∀ (n idx : Nat), (attemptLoop attempts rf af n idx).2.1 ≤ n := by
  intro n
  induction n with
  | zero => intro idx; exact Nat.le_refl 0
  | succ k ih =>
    intro idx
    rw [attemptLoop]
    cases hA : attempts idx with
    | exn =>
      dsimp only
      exact Nat.succ_le_succ (ih (idx+1))
    | resp status reason body =>
      dsimp only
      by_cases hs : status = 200
      · rw [if_pos hs]
        cases hR : shapeResponse rf af body with
        | ok o =>
          cases o with
          | some r => exact Nat.succ_le_succ (Nat.zero_le k)
          | none => exact Nat.succ_le_succ (ih (idx+1))
        | error e => exact Nat.succ_le_succ (ih (idx+1))
      · rw [if_neg hs]
        exact Nat.succ_le_succ (Nat.zero_le k)

theorem attemptLoop_allExn (attempts : Nat → HttpOutcome) (rf af : String) :
    ∀ (n idx : Nat), (∀ i, i < n → attempts (idx + i) = .exn) →
    attemptLoop attempts rf af n idx = (failTriple, n, List.replicate n 2) := by
  intro n
  induction n with
  | zero => intro idx _; rfl
  | succ k ih =>
    intro idx h
    have h0 : attempts idx = .exn := by simpa using h 0 (Nat.succ_pos k)
    rw [attemptLoop, h0]
    dsimp only
    rw [ih (idx+1) (fun i hi => by
      have hh := h (i+1) (Nat.succ_lt_succ hi)
      rwa [show idx + (i+1) = idx + 1 + i by omega] at hh)]
    rfl

theorem attemptLoop_stops (attempts : Nat → HttpOutcome) (rf af : String) :
    ∀ (k n idx : Nat), k < n →
    (∀ i, i < k → attempts (idx + i) = .exn) →
    attemptContinues rf af (attempts (idx + k)) = false →
    (attemptLoop attempts rf af n idx).2.1 = k + 1 ∧
    (attemptLoop attempts rf af n idx).2.2 = List.replicate k 2 := by
  intro k
  induction k with
  | zero =>
    intro n idx hn h hstop
    obtain ⟨m, rfl⟩ : ∃ m, n = m + 1 := ⟨n - 1, by omega⟩
    rw [Nat.add_zero] at hstop
    rw [attemptLoop]
    cases hA : attempts idx with
    | exn =>
      rw [hA] at hstop
      simp [attemptContinues] at hstop
    | resp status reason body =>
      rw [hA] at hstop
      dsimp only
      by_cases hs : status = 200
      · rw [if_pos hs]
        simp only [attemptContinues, if_pos hs] at hstop
        cases hR : shapeResponse rf af body with
        | ok o =>
          cases o with
          | some r => exact ⟨rfl, rfl⟩
          | none => rw [hR] at hstop; simp at hstop
        | error e => rw [hR] at hstop; simp at hstop
      · rw [if_neg hs]
        exact ⟨rfl, rfl⟩
  | succ j ih =>
    intro n idx hn h hstop
    obtain ⟨m, rfl⟩ : ∃ m, n = m + 1 := ⟨n - 1, by omega⟩
    have h0 : attempts idx = .exn := by simpa using h 0 (Nat.succ_pos j)
    rw [attemptLoop, h0]
    dsimp only
    have hrec := ih m (idx+1) (by omega)
      (fun i hi => by
        have hh := h (i+1) (Nat.succ_lt_succ hi)
        rwa [show idx + (i+1) = idx + 1 + i by omega] at hh)
      (by rwa [show idx + 1 + j = idx + (j+1) by omega])
    exact ⟨by rw [hrec.1], by rw [hrec.2]; rfl⟩

theorem attemptLoop_sleeps_two (attempts : Nat → HttpOutcome) (rf af : String) :
    ∀ (n idx : Nat), ∀ s ∈ (attemptLoop attempts rf af n idx).2.2, s = 2 := by
  intro n
  induction n with
  | zero => intro idx s hs; simp [attemptLoop] at hs
  | succ k ih =>
    intro idx s hs
    rw [attemptLoop] at hs
    cases hA : attempts idx with
    | exn =>
      rw [hA] at hs
      dsimp only at hs
      rcases List.mem_cons.mp hs with h | h
      · exact h
      · exact ih (idx+1) s h
    | resp status reason body =>
      rw [hA] at hs
      dsimp only at hs
      by_cases hst : status = 200
      · rw [if_pos hst] at hs
        cases hR : shapeResponse rf af body with
        | ok o =>
          cases o with
          | some r => rw [hR] at hs; simp at hs
          | none => rw [hR] at hs; exact ih (idx+1) s hs
        | error e =>
          rw [hR] at hs
          dsimp only at hs
          rcases List.mem_cons.mp hs with h | h
          · exact h
          · exact ih (idx+1) s h
      · rw [if_neg hst] at hs
        simp at hs

theorem attemptLoop_non200 (attempts : Nat → HttpOutcome) (rf af : String)
    (n idx status : Nat) (reason body : String)
    (hA : attempts idx = .resp status reason body) (hs : status ≠ 200) :
    attemptLoop attempts rf af (n+1) idx
      = (⟨body, false, natToStr status ++ " " ++ reason⟩, 1, []) := by
  rw [attemptLoop, hA]
  dsimp only
  rw [if_neg hs]

/-! ## Except bind reduction, status strings, and the success invariant -/

theorem except_bind_ok {α β : Type} (a : α) (f : α → Except PyExn β) :
    (do let x ← Except.ok a; f x) = f a := rfl

theorem except_bind_err {α β : Type} (e : PyExn) (f : α → Except PyExn β) :
    (do let x ← (Except.error e : Except PyExn α); f x) = Except.error e := rfl

theorem natToStr_status_200 (status : Nat) (reason : String)
    (h : natToStr status ++ " " ++ reason = "200 OK") : status = 200 := by
  have hd : natToChars status ++ ([' '] ++ reason.data) = ['2', '0', '0', ' ', 'O', 'K'] := by
    have h2 := congrArg String.data h
    rw [String.data_append, String.data_append, List.append_assoc] at h2
    exact h2
  have hdig := natToChars_digits status
  have h200 : natToChars status = ['2', '0', '0'] := by
    rcases hc : natToChars status with _ | ⟨a, _ | ⟨b, _ | ⟨c, _ | ⟨d, t⟩⟩⟩⟩
    · exact absurd hc (natToChars_ne_nil status)
    · rw [hc] at hd
      simp only [List.cons_append, List.nil_append, List.cons.injEq] at hd
      exact absurd hd.2.1 (by decide)
    · rw [hc] at hd
      simp only [List.cons_append, List.nil_append, List.cons.injEq] at hd
      exact absurd hd.2.2.1 (by decide)
    · rw [hc] at hd
      simp only [List.cons_append, List.nil_append, List.cons.injEq] at hd
      rw [hd.1, hd.2.1, hd.2.2.1]
    · rw [hc] at hd
      simp only [List.cons_append, List.nil_append, List.cons.injEq] at hd
      have hdin : d.isDigit = true := by
        rw [hc] at hdig
        exact hdig d (by simp)
      rw [hd.2.2.2.1] at hdin
      exact absurd hdin (by decide)
  have hn := natFromChars_natToChars status
  rw [h200] at hn
  have he : natFromChars ['2', '0', '0'] = 200 := by decide
  omega

theorem shapeResponse_success_iff (rf af body : String) (r : TranslationResult)
    (h : shapeResponse rf af body = Except.ok (some r)) :
    (r.success = true ↔ r.status_code = "200 OK") := by
  rw [shapeResponse] at h
  split at h
  · split at h
    · obtain rfl : ({ text := body, success := true, status_code := "200 OK" }
          : TranslationResult) = r := by simpa using h
      simp
    · simp at h
  · split at h
    · split at h
      · obtain rfl : ((⟨"Error parsing JSON response.", false,
            "200 OK but failed to parse JSON"⟩ : TranslationResult) = r) := by
          simpa using h
        constructor <;> (intro hs; exact absurd hs (by decide))
      · rename_i response_json heq
        split at h
        · obtain rfl : ((⟨dumps response_json, true, "200 OK"⟩ : TranslationResult) = r) := by
            simpa using h
          simp
        · split at h
          · obtain rfl : ((⟨dumps response_json, true, "200 OK"⟩ : TranslationResult) = r) := by
              simpa using h
            simp
          · split at h
            · cases hg : pyDictGet response_json "segments" (Json.arr []) with
              | error e => rw [hg, except_bind_err] at h; simp at h
              | ok sj =>
                rw [hg, except_bind_ok] at h
                cases hi : pyIter sj with
                | error e => rw [hi, except_bind_err] at h; simp at h
                | ok segs =>
                  rw [hi, except_bind_ok] at h
                  cases ht : tsText segs with
                  | error e => rw [ht, except_bind_err] at h; simp at h
                  | ok txt =>
                    rw [ht, except_bind_ok] at h
                    obtain rfl : ((⟨pyStrip txt, true, "200 OK"⟩ : TranslationResult) = r) := by
                      simpa using h
                    simp
            · split at h
              · cases hg : pyDictGet response_json "segments" (Json.arr []) with
                | error e => rw [hg, except_bind_err] at h; simp at h
                | ok sj =>
                  rw [hg, except_bind_ok] at h
                  cases hi : pyIter sj with
                  | error e => rw [hi, except_bind_err] at h; simp at h
                  | ok segs =>
                    rw [hi, except_bind_ok] at h
                    cases ht : lbText segs with
                    | error e => rw [ht, except_bind_err] at h; simp at h
                    | ok txt =>
                      rw [ht, except_bind_ok] at h
                      obtain rfl : ((⟨pyStrip txt, true, "200 OK"⟩ : TranslationResult) = r) := by
                        simpa using h
                      simp
              · simp at h
    · obtain rfl : ((⟨"Unknown api_response_format.", false,
          "400 Bad Request"⟩ : TranslationResult) = r) := by simpa using h
      constructor <;> (intro hs; exact absurd hs (by decide))

theorem attemptLoop_success_iff (attempts : Nat → HttpOutcome) (rf af : String) :
    ∀ (n idx : Nat),
      ((attemptLoop attempts rf af n idx).1.success = true ↔
       (attemptLoop attempts rf af n idx).1.status_code = "200 OK") := by
  intro n
  induction n with
  | zero =>
    intro idx
    rw [attemptLoop]
    decide
  | succ k ih =>
    intro idx
    rw [attemptLoop]
    cases hA : attempts idx with
    | exn =>
      dsimp only
      exact ih (idx+1)
    | resp status reason body =>
      dsimp only
      by_cases hs : status = 200
      · rw [if_pos hs]
        cases hR : shapeResponse rf af body with
        | ok o =>
          cases o with
          | some r =>
            dsimp only
            exact shapeResponse_success_iff rf af body r hR
          | none =>
            dsimp only
            exact ih (idx+1)
        | error e =>
          dsimp only
          exact ih (idx+1)
      · rw [if_neg hs]
        dsimp only
        constructor
        · intro hfalse
          exact absurd hfalse (by decide)
        · intro hsc
          exact absurd (natToStr_status_200 status reason hsc) hs

/-! ## Dotless paths, message prefixes, and the timestamp head -/

theorem pySplitDot_no_dot : ∀ (l : List Char), (∀ c ∈ l, c ≠ '.') → pySplitDot l = [l] := by
  intro l
  induction l with
  | nil => intro _; rfl
  | cons c t ih =>
    intro h
    rw [pySplitDot, ih (fun x hx => h x (List.mem_cons_of_mem c hx))]
    dsimp only
    rw [if_neg (h c (List.mem_cons_self c t))]

theorem extOf_no_dot (fp : String) (h : ∀ c ∈ fp.data, c ≠ '.') :
    extOf fp = ⟨fp.data.map Char.toLower⟩ := by
  rw [extOf, pySplitDot_no_dot fp.data h]
  rfl

theorem unsupportedMsg_split (ext : String) :
    unsupportedMsg ext
      = "Unsupported audio format" ++ (" " ++ (squoteS ++ (ext ++ (squoteS ++ ".")))) := by
  rw [unsupportedMsg]
  rw [show ("Unsupported audio format " : String) = "Unsupported audio format" ++ " " from rfl]
  rw [String.append_assoc, String.append_assoc, String.append_assoc, String.append_assoc]

/-! ## The claims -/

/-- C1: process_translation_request never raises past its boundary: on every
input and environment the handler evaluates to an ok result carrying a
(text, success, statusCode) triple, never to an escaping exception. -/
theorem c1_never_raises (env : Env) (model fp preset ui rf : String)
    (temp : PyFloat) (n : Nat) :
    ∃ tr, process_translation_request env model fp preset ui rf temp n = .ok tr := by
  rw [process_translation_request]
  by_cases h1 : env.isFile fp = false
  · rw [if_pos h1]
    exact ⟨_, rfl⟩
  · rw [if_neg h1]
    dsimp only
    by_cases h2 : extOf fp ∈ SUPPORTED_AUDIO_FORMATS
    · rw [if_pos h2]
      cases h3 : env.readAudio fp with
      | none => exact ⟨_, rfl⟩
      | some bs =>
        dsimp only
        cases h4 : apiFormatOf rf with
        | none => exact ⟨_, rfl⟩
        | some af => exact ⟨_, rfl⟩
    · rw [if_neg h2]
      exact ⟨_, rfl⟩

/-- C2 counterexample: an environment whose transport always completes with
an HTTP 200 response whose body is the JSON array text, on which the segment
extraction raises; with max_retries = 2 the handler issues two HTTP attempts
and sleeps twice, so the loop does retry on a completed non-exceptional
response, refuting that it retries only on request-level exceptions. -/
theorem c2_counterexample :
    envArrBody.attempts 0 = .resp 200 "OK" "[]" ∧
    envArrBody.attempts 1 = .resp 200 "OK" "[]" ∧
    process_translation_request envArrBody "whisper-large-v3" "a.wav" DEFAULT_PROMPT ""
        "text_with_timestamps" (PyFloat.ofInt 0) 2
      = .ok ⟨failTriple, 2, [2, 2], 1, none⟩ :=
  ⟨rfl, rfl, rfl⟩

/-- C2 (amended): a completed HTTP response with a non-200 status makes the
handler return immediately with the raw body, success false and the status
string, after exactly one HTTP attempt and no sleep; retrying can however
also happen on a 200 response whose shaping raises, not only on
request-level exceptions. -/
theorem c2_non200_no_retry (env : Env) (model fp preset ui rf : String)
    (temp : PyFloat) (n : Nat) (af : String) (bs : List Nat)
    (status : Nat) (reason body : String)
    (hfile : env.isFile fp = true) (hext : extOf fp ∈ SUPPORTED_AUDIO_FORMATS)
    (hread : env.readAudio fp = some bs) (haf : apiFormatOf rf = some af)
    (hA : env.attempts 0 = .resp status reason body) (hs : status ≠ 200) :
    process_translation_request env model fp preset ui rf temp (n + 1)
      = .ok ⟨⟨body, false, natToStr status ++ " " ++ reason⟩, 1, [], 1,
          promptDataField (preparePrompt env.prompt_options preset ui)⟩ := by
  rw [process_reaches_loop env model fp preset ui rf temp (n + 1) af bs hfile hext hread haf]
  rw [attemptLoop_non200 env.attempts rf af n 0 status reason body hA hs]

/-- C2 witness: a single 429 response is surfaced as is after one attempt. -/
theorem c2_non200_witness :
    process_translation_request env429 "whisper-large-v3" "a.wav" DEFAULT_PROMPT ""
        "json" (PyFloat.ofInt 0) 2
      = .ok ⟨⟨"slow down", false, "429 Too Many Requests"⟩, 1, [], 1, none⟩ :=
  c2_non200_no_retry env429 "whisper-large-v3" "a.wav" DEFAULT_PROMPT "" "json"
    (PyFloat.ofInt 0) 1 "json" [1] 429 "Too Many Requests" "slow down"
    rfl (by decide) rfl rfl rfl (by decide)

/-- C3: the retry loop issues at most max_retries HTTP attempts; every sleep
is exactly 2 seconds; if every attempt raises, the loop exhausts with the
failure triple after max_retries attempts and max_retries sleeps; and if the
first k attempts raise and attempt k returns, exactly k+1 attempts are
issued with k sleeps, leaving the remaining attempts unconsumed. -/
theorem c3_retry_policy (attempts : Nat → HttpOutcome) (rf af : String) :
    (∀ (n idx : Nat), (attemptLoop attempts rf af n idx).2.1 ≤ n) ∧
    (∀ (n idx : Nat), ∀ s ∈ (attemptLoop attempts rf af n idx).2.2, s = 2) ∧
    (∀ (n idx : Nat), (∀ i, i < n → attempts (idx + i) = .exn) →
        attemptLoop attempts rf af n idx = (failTriple, n, List.replicate n 2)) ∧
    (∀ (k n idx : Nat), k < n → (∀ i, i < k → attempts (idx + i) = .exn) →
        attemptContinues rf af (attempts (idx + k)) = false →
        (attemptLoop attempts rf af n idx).2.1 = k + 1 ∧
        (attemptLoop attempts rf af n idx).2.2 = List.replicate k 2) :=
  ⟨attemptLoop_calls_le attempts rf af, attemptLoop_sleeps_two attempts rf af,
   attemptLoop_allExn attempts rf af, attemptLoop_stops attempts rf af⟩

/-- C3 witness: two transport exceptions then a successful plain text
response, with max_retries 3: three attempts, two sleeps of 2 seconds, and
the success result; and a run in which every attempt raises exhausts. -/
theorem c3_retry_witness :
    ((attemptLoop envThird.attempts "text" "text" 3 0).2.1 = 2 + 1 ∧
     (attemptLoop envThird.attempts "text" "text" 3 0).2.2 = List.replicate 2 2) ∧
    process_translation_request envThird "whisper-large-v3" "a.wav" DEFAULT_PROMPT ""
        "text" (PyFloat.ofInt 0) 3
      = .ok ⟨⟨"hola", true, "200 OK"⟩, 3, [2, 2], 1, none⟩ ∧
    attemptLoop envReadFail.attempts "text" "text" 3 0
      = (failTriple, 3, List.replicate 3 2) :=
  ⟨(c3_retry_policy envThird.attempts "text" "text").2.2.2 2 3 0 (by decide) (by decide)
      (by decide),
   rfl,
   (c3_retry_policy envReadFail.attempts "text" "text").2.2.1 3 0 (fun i _ => rfl)⟩

/-- C5: for json and verbose_json on an HTTP 200 response whose body parses,
the handler returns the re-serialized JSON with success and 200 OK, and
parsing the returned string yields the same structure back; a body that
fails to parse yields the fixed parse-failure triple. -/
theorem c5_json_roundtrip (rf : String) (hrf : rf = "json" ∨ rf = "verbose_json") :
    (∀ (body : String) (j : Json), loads body = some j →
        shapeResponse rf rf body = .ok (some ⟨dumps j, true, "200 OK"⟩) ∧
        loads (dumps j) = some j) ∧
    (∀ body : String, loads body = none →
        shapeResponse rf rf body
          = .ok (some ⟨"Error parsing JSON response.", false,
              "200 OK but failed to parse JSON"⟩)) ∧
    apiFormatOf rf = some rf := by
  refine ⟨fun body j hb => ⟨shapeResponse_json rf body j hrf hb, loads_dumps j⟩,
    fun body hb => shapeResponse_parseFail rf body hrf hb, ?_⟩
  rcases hrf with h | h <;> subst h <;> rfl

/-- C5 witness: a one-field object body round-trips, and a non-JSON body
yields the parse-failure triple. -/
theorem c5_json_witness :
    (shapeResponse "json" "json" "\x7b\"text\": \"hola\"\x7d"
        = .ok (some ⟨dumps (Json.obj [("text", Json.str "hola")]), true, "200 OK"⟩) ∧
     loads (dumps (Json.obj [("text", Json.str "hola")]))
        = some (Json.obj [("text", Json.str "hola")])) ∧
    shapeResponse "json" "json" "not json"
      = .ok (some ⟨"Error parsing JSON response.", false,
          "200 OK but failed to parse JSON"⟩) :=
  ⟨(c5_json_roundtrip "json" (Or.inl rfl)).1 _ _ rfl,
   (c5_json_roundtrip "json" (Or.inl rfl)).2.1 _ rfl⟩

/-- C6: prompt construction is asymmetric.  On any run that reaches the
request loop, the request data carries the truthiness-filtered prompt; when
preset is the sentinel default, the prompt is the sentinel with [user_input]
replaced by the trimmed input and is omitted entirely on empty input, while
any other preset substitutes into the looked-up template unconditionally. -/
theorem c6_prompt_asymmetry (env : Env) (model fp preset ui rf : String)
    (temp : PyFloat) (n : Nat) (af : String) (bs : List Nat)
    (hfile : env.isFile fp = true) (hext : extOf fp ∈ SUPPORTED_AUDIO_FORMATS)
    (hread : env.readAudio fp = some bs) (haf : apiFormatOf rf = some af) :
    ∃ tr, process_translation_request env model fp preset ui rf temp n = .ok tr ∧
      tr.promptField = promptDataField (preparePrompt env.prompt_options preset ui) ∧
      (preset = DEFAULT_PROMPT → ui = "" →
        preparePrompt env.prompt_options preset ui = none) ∧
      (preset = DEFAULT_PROMPT → ui ≠ "" →
        preparePrompt env.prompt_options preset ui
          = some (DEFAULT_PROMPT.replace "[user_input]" (pyStrip ui))) ∧
      (preset ≠ DEFAULT_PROMPT →
        preparePrompt env.prompt_options preset ui
          = some ((get_prompt_content env.prompt_options preset).replace "[user_input]"
              (pyStrip ui))) := by
  refine ⟨_, process_reaches_loop env model fp preset ui rf temp n af bs hfile hext hread haf,
    rfl, ?_, ?_, ?_⟩
  · intro hp hui
    rw [preparePrompt, if_pos hp, if_pos hui]
  · intro hp hui
    rw [preparePrompt, if_pos hp, if_neg hui]
  · intro hp
    rw [preparePrompt, if_neg hp]

/-- C6 witness: a non-default preset with whitespace-padded input reaches
the loop and substitutes unconditionally. -/
theorem c6_prompt_witness :
    ∃ tr, process_translation_request envHola "whisper-large-v3" "a.wav" "MyStyle" " loud "
        "json" (PyFloat.ofInt 0) 1 = .ok tr ∧
      tr.promptField = promptDataField (preparePrompt envHola.prompt_options "MyStyle" " loud ") ∧
      ("MyStyle" = DEFAULT_PROMPT → " loud " = "" →
        preparePrompt envHola.prompt_options "MyStyle" " loud " = none) ∧
      ("MyStyle" = DEFAULT_PROMPT → " loud " ≠ "" →
        preparePrompt envHola.prompt_options "MyStyle" " loud "
          = some (DEFAULT_PROMPT.replace "[user_input]" (pyStrip " loud "))) ∧
      ("MyStyle" ≠ DEFAULT_PROMPT →
        preparePrompt envHola.prompt_options "MyStyle" " loud "
          = some ((get_prompt_content envHola.prompt_options "MyStyle").replace "[user_input]"
              (pyStrip " loud "))) :=
  c6_prompt_asymmetry envHola "whisper-large-v3" "a.wav" "MyStyle" " loud " "json"
    (PyFloat.ofInt 0) 1 "json" [1] rfl (by decide) rfl rfl

/-- C7 counterexample: segments whose first text is whitespace only.  The
claim's formula trims only trailing whitespace and predicts a leading line
break, but the code strips both ends, so the run returns hi instead. -/
theorem c7_counterexample :
    process_translation_request envBlankFirst "whisper-large-v3" "a.wav" DEFAULT_PROMPT ""
        "text_with_linebreaks" (PyFloat.ofInt 0) 2
      = .ok ⟨⟨"hi", true, "200 OK"⟩, 1, [], 1, none⟩ ∧
    c7ClaimText [" ", "hi"] = "\nhi" ∧
    ("hi" : String) ≠ "\nhi" :=
  ⟨rfl, rfl, by decide⟩

/-- C7 (amended): for text_with_linebreaks on an HTTP 200 verbose_json
response, the returned text is the concatenation of each segment's trimmed
text followed by a line break, with whitespace trimmed from both ends of the
final result (not only the trailing end), success and 200 OK. -/
theorem c7_linebreaks_amended (body : String) (texts : List String)
    (hb : loads body = some (Json.obj [("segments", Json.arr (texts.map mkTextSegment))])) :
    shapeResponse "text_with_linebreaks" "verbose_json" body
      = .ok (some ⟨c7AmendedText texts, true, "200 OK"⟩) := by
  rw [shapeResponse_lb body _ hb]
  rw [show pyDictGet (Json.obj [("segments", Json.arr (texts.map mkTextSegment))]) "segments"
      (Json.arr []) = Except.ok (Json.arr (texts.map mkTextSegment)) from rfl, except_bind_ok]
  rw [show pyIter (Json.arr (texts.map mkTextSegment)) = Except.ok (texts.map mkTextSegment)
      from rfl, except_bind_ok]
  rw [lbText_spec texts, except_bind_ok, c7AmendedText]

/-- C7 witness: the two-segment example yields hi then a line break then
bye. -/
theorem c7_linebreaks_witness :
    shapeResponse "text_with_linebreaks" "verbose_json"
        "\x7b\"segments\": [\x7b\"text\": \"hi\"\x7d, \x7b\"text\": \"bye\"\x7d]\x7d"
      = .ok (some ⟨c7AmendedText ["hi", "bye"], true, "200 OK"⟩) ∧
    c7AmendedText ["hi", "bye"] = "hi\nbye" :=
  ⟨c7_linebreaks_amended _ ["hi", "bye"] rfl, rfl⟩

/-- C8: an existing file whose lowercased last-dot extension is unsupported
is rejected with the unsupported-format message, success false and
400 Bad Request, before any file read or HTTP attempt; the message starts
with the words Unsupported audio format. -/
theorem c8_unsupported_ext (env : Env) (model fp preset ui rf : String)
    (temp : PyFloat) (n : Nat)
    (hfile : env.isFile fp = true) (hext : extOf fp ∉ SUPPORTED_AUDIO_FORMATS) :
    process_translation_request env model fp preset ui rf temp n
      = .ok ⟨⟨unsupportedMsg (extOf fp), false, "400 Bad Request"⟩, 0, [], 0, none⟩ ∧
    ∃ rest, unsupportedMsg (extOf fp) = "Unsupported audio format" ++ rest := by
  constructor
  · rw [process_translation_request, hfile, if_neg (by decide)]
    dsimp only
    rw [if_neg hext]
  · exact ⟨" " ++ (squoteS ++ (extOf fp ++ (squoteS ++ "."))), unsupportedMsg_split (extOf fp)⟩

/-- C8 witness: a txt path is rejected without any file read or HTTP call. -/
theorem c8_unsupported_witness :
    envHola.isFile "a.txt" = true ∧
    extOf "a.txt" ∉ SUPPORTED_AUDIO_FORMATS ∧
    (process_translation_request envHola "whisper-large-v3" "a.txt" DEFAULT_PROMPT ""
        "json" (PyFloat.ofInt 0) 2
      = .ok ⟨⟨unsupportedMsg (extOf "a.txt"), false, "400 Bad Request"⟩, 0, [], 0, none⟩ ∧
    ∃ rest, unsupportedMsg (extOf "a.txt") = "Unsupported audio format" ++ rest) :=
  ⟨rfl, by decide,
   c8_unsupported_ext envHola "whisper-large-v3" "a.txt" DEFAULT_PROMPT "" "json"
     (PyFloat.ofInt 0) 2 rfl (by decide)⟩

/-- C9: on every return path, success is true exactly when the returned
status string is 200 OK; the parse-failure status, the 400 Bad Request
paths, the non-200 HTTP path and retry exhaustion all carry success
false. -/
theorem c9_success_iff_200 (env : Env) (model fp preset ui rf : String)
    (temp : PyFloat) (n : Nat) (tr : RunTrace)
    (h : process_translation_request env model fp preset ui rf temp n = .ok tr) :
    (tr.result.success = true ↔ tr.result.status_code = "200 OK") := by
  rw [process_translation_request] at h
  by_cases h1 : env.isFile fp = false
  · rw [if_pos h1] at h
    obtain rfl : ((⟨⟨"File not found.", false, "400 Bad Request"⟩, 0, [], 0, none⟩
        : RunTrace) = tr) := by simpa using h
    constructor <;> (intro hx; exact absurd hx (by decide))
  · rw [if_neg h1] at h
    dsimp only at h
    by_cases h2 : extOf fp ∈ SUPPORTED_AUDIO_FORMATS
    · rw [if_pos h2] at h
      cases h3 : env.readAudio fp with
      | none =>
        rw [h3] at h
        dsimp only at h
        obtain rfl : ((⟨⟨"Error reading audio file.", false, "400 Bad Request"⟩, 0, [], 1, none⟩
            : RunTrace) = tr) := by simpa using h
        constructor <;> (intro hx; exact absurd hx (by decide))
      | some bs =>
        rw [h3] at h
        dsimp only at h
        cases h4 : apiFormatOf rf with
        | none =>
          rw [h4] at h
          dsimp only at h
          obtain rfl : ((⟨⟨"Unknown response format.", false, "400 Bad Request"⟩, 0, [], 1, none⟩
              : RunTrace) = tr) := by simpa using h
          constructor <;> (intro hx; exact absurd hx (by decide))
        | some af =>
          rw [h4] at h
          dsimp only at h
          obtain rfl : ((⟨(attemptLoop env.attempts rf af n 0).1,
              (attemptLoop env.attempts rf af n 0).2.1,
              (attemptLoop env.attempts rf af n 0).2.2, 1,
              promptDataField (preparePrompt env.prompt_options preset ui)⟩
              : RunTrace) = tr) := by simpa using h
          dsimp only
          exact attemptLoop_success_iff env.attempts rf af n 0
    · rw [if_neg h2] at h
      obtain rfl : ((⟨⟨unsupportedMsg (extOf fp), false, "400 Bad Request"⟩, 0, [], 0, none⟩
          : RunTrace) = tr) := by simpa using h
      dsimp only
      decide

/-- C9 witness: the timestamp example run, whose result is successful with
status 200 OK. -/
theorem c9_success_witness :
    process_translation_request envTs "whisper-large-v3" "a.wav" DEFAULT_PROMPT ""
        "text_with_timestamps" (PyFloat.ofInt 0) 2 = .ok trTs ∧
    (trTs.result.success = true ↔ trTs.result.status_code = "200 OK") :=
  ⟨rfl, c9_success_iff_200 envTs "whisper-large-v3" "a.wav" DEFAULT_PROMPT ""
    "text_with_timestamps" (PyFloat.ofInt 0) 2 trTs rfl⟩

/-- C10 counterexample: the dotless path WAV passes extension validation,
because extraction lowercases, yet the path itself is not one of the
supported extension strings; the run proceeds past validation to the file
read, refuting the claimed equivalence with literal set membership. -/
theorem c10_counterexample :
    (∀ c ∈ ("WAV" : String).data, c ≠ '.') ∧
    extOf "WAV" ∈ SUPPORTED_AUDIO_FORMATS ∧
    ("WAV" : String) ∉ SUPPORTED_AUDIO_FORMATS ∧
    process_translation_request envReadFail "whisper-large-v3" "WAV" DEFAULT_PROMPT ""
        "json" (PyFloat.ofInt 0) 2
      = .ok ⟨⟨"Error reading audio file.", false, "400 Bad Request"⟩, 0, [], 1, none⟩ :=
  ⟨by decide, by decide, by decide, rfl⟩

/-- C10 (amended): for a dotless path the extracted extension is the entire
lowercased path, so such a path passes validation exactly when its
lowercasing is one of the supported extension strings. -/
theorem c10_dotless_amended (fp : String) (h : ∀ c ∈ fp.data, c ≠ '.') :
    extOf fp = (⟨fp.data.map Char.toLower⟩ : String) ∧
    (extOf fp ∈ SUPPORTED_AUDIO_FORMATS ↔
      (⟨fp.data.map Char.toLower⟩ : String) ∈ SUPPORTED_AUDIO_FORMATS) := by
  have he := extOf_no_dot fp h
  exact ⟨he, by rw [he]⟩

/-- C10 witness: the dotless path WAV, whose lowercasing is wav. -/
theorem c10_dotless_witness :
    (∀ c ∈ ("WAV" : String).data, c ≠ '.') ∧
    (extOf "WAV" = (⟨"WAV".data.map Char.toLower⟩ : String) ∧
     (extOf "WAV" ∈ SUPPORTED_AUDIO_FORMATS ↔
       (⟨"WAV".data.map Char.toLower⟩ : String) ∈ SUPPORTED_AUDIO_FORMATS)) :=
  ⟨by decide, c10_dotless_amended "WAV" (by decide)⟩

/-! ## Binary length and the binade exponent -/

theorem bitLenAux_zero : ∀ fuel, bitLenAux fuel 0 = 0 := by
  intro fuel
  cases fuel with
  | zero => rfl
  | succ f => rw [bitLenAux, if_pos rfl]

theorem bitLenAux_spec : ∀ (fuel n : Nat), n ≤ fuel → 1 ≤ n →
    2 ^ (bitLenAux fuel n - 1) ≤ n ∧ n < 2 ^ (bitLenAux fuel n) := by
  intro fuel
  induction fuel with
  | zero => intro n h1 h2; omega
  | succ f ih =>
    intro n h1 h2
    rw [bitLenAux, if_neg (by omega)]
    by_cases hn : n = 1
    · subst hn
      rw [show (1:Nat)/2 = 0 by norm_num, bitLenAux_zero]
      norm_num
    · have hrec := ih (n/2) (by omega) (by omega)
      set L := bitLenAux f (n/2) with hL
      have hL1 : 1 ≤ L := by
        by_contra hc
        have h0 : L = 0 := by omega
        rw [h0] at hrec
        omega
      have h2L : 2^L = 2^(L-1) * 2 := by
        rw [← pow_succ]
        congr 1
        omega
      have h2L1 : 2^(L+1) = 2 * 2^L := by rw [pow_succ]; ring
      constructor
      · rw [Nat.add_sub_cancel]
        omega
      · omega

theorem bitLen_spec (n : Nat) (h : 1 ≤ n) :
    2 ^ (bitLen n - 1) ≤ n ∧ n < 2 ^ (bitLen n) := bitLenAux_spec n n le_rfl h

theorem bitLen_pos (n : Nat) (h : 1 ≤ n) : 1 ≤ bitLen n := by
  rcases bitLen_spec n h with ⟨h1, h2⟩
  by_contra hc
  have h0 : bitLen n = 0 := by omega
  rw [h0] at h2
  simp at h2
  omega

theorem bitLen_unique (n l : Nat) (h1 : 2 ^ l ≤ n) (h2 : n < 2 ^ (l+1)) :
    bitLen n = l + 1 := by
  have hn : 1 ≤ n := le_trans Nat.one_le_two_pow h1
  rcases bitLen_spec n hn with ⟨g1, g2⟩
  have hp := bitLen_pos n hn
  by_contra hc
  rcases Nat.lt_or_ge (bitLen n) (l+1) with hlt | hge
  · have hle : 2 ^ (bitLen n) ≤ 2 ^ l := Nat.pow_le_pow_right (by norm_num) (by omega)
    omega
  · have hgt : l + 1 ≤ bitLen n - 1 := by omega
    have hle : 2 ^ (l+1) ≤ 2 ^ (bitLen n - 1) := Nat.pow_le_pow_right (by norm_num) hgt
    omega

theorem bitLen_shift (s t : Nat) (h : 1 ≤ s) : bitLen (s * 2^t) = bitLen s + t := by
  rcases bitLen_spec s h with ⟨h1, h2⟩
  have hp := bitLen_pos s h
  have key := bitLen_unique (s * 2^t) (bitLen s - 1 + t)
    (by rw [pow_add]; exact Nat.mul_le_mul_right _ h1)
    (by
      rw [show bitLen s - 1 + t + 1 = bitLen s + t by omega, pow_add]
      exact Nat.mul_lt_mul_of_lt_of_le h2 le_rfl (pow_pos (by norm_num) t))
  omega

theorem zpow_toNat_split (e : Int) :
    ((2:ℚ) ^ e) = (2 ^ e.toNat : ℚ) / (2 ^ (-e).toNat : ℚ) := by
  rcases Int.le_or_lt 0 e with he | he
  · rw [show (-e).toNat = 0 by omega, pow_zero, div_one]
    rw [show e = (e.toNat : Int) by omega, zpow_natCast]
    congr 1
    try omega
  · rw [show e.toNat = 0 by omega, pow_zero]
    rw [show e = -((-e).toNat : Int) by omega]
    rw [zpow_neg, zpow_natCast, one_div]
    congr 2
    omega

theorem cross_le_iff (s b : Nat) (e : Int) (hb : 1 ≤ b) :
    (b * 2 ^ e.toNat ≤ s * 2 ^ (-e).toNat) ↔ ((2:ℚ) ^ e ≤ (s:ℚ) / b) := by
  have hb' : (0:ℚ) < b := by exact_mod_cast hb
  have h2 : (0:ℚ) < 2 ^ (-e).toNat := by positivity
  rw [le_div_iff₀ hb', zpow_toNat_split, div_mul_eq_mul_div, div_le_iff₀ h2]
  rw [show ((2:ℚ)^e.toNat * (b:ℚ)) = ((b * 2^e.toNat : Nat) : ℚ) by push_cast; ring]
  rw [show ((s:ℚ) * (2:ℚ)^(-e).toNat) = ((s * 2^(-e).toNat : Nat) : ℚ) by push_cast; ring]
  exact_mod_cast Iff.rfl

theorem ratLog2_spec (s b : Nat) (hs : 1 ≤ s) (hb : 1 ≤ b) :
    (2:ℚ) ^ (ratLog2 s b) ≤ (s:ℚ) / b ∧ (s:ℚ) / b < 2 ^ (ratLog2 s b + 1) := by
  have hb' : (0:ℚ) < b := by exact_mod_cast hb
  rcases bitLen_spec s hs with ⟨hs1, hs2⟩
  rcases bitLen_spec b hb with ⟨hb1, hb2⟩
  have hsp := bitLen_pos s hs
  have hbp := bitLen_pos b hb
  set Ls := bitLen s
  set Lb := bitLen b
  set e0 : Int := (Ls : Int) - (Lb : Int) with he0
  have hsl : (2:ℚ) ^ ((Ls : Int) - 1) ≤ (s : ℚ) := by
    rw [show (Ls : Int) - 1 = ((Ls - 1 : Nat) : Int) by omega, zpow_natCast]
    exact_mod_cast hs1
  have hsu : (s : ℚ) < 2 ^ (Ls : Int) := by
    rw [zpow_natCast]
    exact_mod_cast hs2
  have hbl : (2:ℚ) ^ ((Lb : Int) - 1) ≤ (b : ℚ) := by
    rw [show (Lb : Int) - 1 = ((Lb - 1 : Nat) : Int) by omega, zpow_natCast]
    exact_mod_cast hb1
  have hbu : (b : ℚ) < 2 ^ (Lb : Int) := by
    rw [zpow_natCast]
    exact_mod_cast hb2
  have hlow : (2:ℚ) ^ (e0 - 1) < (s:ℚ) / b := by
    rw [lt_div_iff₀ hb']
    calc (2:ℚ) ^ (e0 - 1) * b < 2 ^ (e0 - 1) * 2 ^ (Lb : Int) :=
          mul_lt_mul_of_pos_left hbu (by positivity)
      _ = 2 ^ ((Ls : Int) - 1) := by
          rw [← zpow_add₀ (by norm_num : (2:ℚ) ≠ 0)]
          congr 1
          omega
      _ ≤ s := hsl
  have hupp : (s:ℚ) / b < 2 ^ (e0 + 1) := by
    rw [div_lt_iff₀ hb']
    calc (s:ℚ) < 2 ^ (Ls : Int) := hsu
      _ = 2 ^ (e0 + 1) * 2 ^ ((Lb : Int) - 1) := by
          rw [← zpow_add₀ (by norm_num : (2:ℚ) ≠ 0)]
          congr 1
          omega
      _ ≤ 2 ^ (e0 + 1) * b := mul_le_mul_of_nonneg_left hbl (by positivity)
  simp only [ratLog2]
  by_cases hC : b * 2 ^ ((Ls:Int) - (Lb:Int)).toNat ≤ s * 2 ^ (-((Ls:Int) - (Lb:Int))).toNat
  · rw [if_pos hC]
    exact ⟨(cross_le_iff s b ((Ls:Int) - (Lb:Int)) hb).mp hC, hupp⟩
  · rw [if_neg hC]
    refine ⟨le_of_lt hlow, ?_⟩
    have hn := (cross_le_iff s b ((Ls:Int) - (Lb:Int)) hb).not.mp hC
    rw [show ((Ls:Int) - (Lb:Int)) - 1 + 1 = (Ls:Int) - (Lb:Int) by ring]
    exact not_le.mp hn

theorem zpow_window_unique (v : ℚ) (e1 e2 : Int) (h1l : 2^e1 ≤ v) (h1u : v < 2^(e1+1))
    (h2l : 2^e2 ≤ v) (h2u : v < 2^(e2+1)) : e1 = e2 := by
  by_contra hne
  rcases Int.lt_or_lt_of_ne hne with h | h
  · have : (2:ℚ)^(e1+1) ≤ 2^e2 := zpow_le_zpow_right₀ (by norm_num) (by omega)
    linarith
  · have : (2:ℚ)^(e2+1) ≤ 2^e1 := zpow_le_zpow_right₀ (by norm_num) (by omega)
    linarith

/-! ## The rounding core: exactness, bounds, scale invariance -/

theorem rrCore_exact (s b : Nat) (sh : Int) (hden : 0 < b * 2 ^ (-sh).toNat)
    (hdvd : (b * 2 ^ (-sh).toNat) ∣ (s * 2 ^ sh.toNat)) :
    rrCore s b sh = (s * 2 ^ sh.toNat) / (b * 2 ^ (-sh).toNat) := by
  rw [rrCore]
  have hr : (s * 2 ^ sh.toNat) % (b * 2 ^ (-sh).toNat) = 0 := Nat.mod_eq_zero_of_dvd hdvd
  rw [hr]
  rw [if_neg (by omega), if_neg (by omega)]

theorem rrCore_bounds (s b : Nat) (sh : Int) :
    (s * 2 ^ sh.toNat) / (b * 2 ^ (-sh).toNat) ≤ rrCore s b sh ∧
    rrCore s b sh ≤ (s * 2 ^ sh.toNat) / (b * 2 ^ (-sh).toNat) + 1 := by
  rw [rrCore]
  split
  · omega
  · split
    · split <;> omega
    · omega

theorem rrCore_shift (s b t : Nat) (sh : Int) :
    rrCore (s * 2^t) (b * 2^t) sh = rrCore s b sh := by
  have hT : 0 < 2^t := pow_pos (by norm_num) t
  rw [rrCore, rrCore]
  have hnum : s * 2^t * 2 ^ sh.toNat = s * 2 ^ sh.toNat * 2^t := by ring
  have hden : b * 2^t * 2 ^ (-sh).toNat = b * 2 ^ (-sh).toNat * 2^t := by ring
  rw [hnum, hden, Nat.mul_div_mul_right _ _ hT, Nat.mul_mod_mul_right]
  set A := s * 2 ^ sh.toNat with hA
  set B := b * 2 ^ (-sh).toNat with hB
  by_cases h1 : B < 2 * (A % B)
  · rw [if_pos (show B * 2^t < 2 * (A % B * 2^t) from by
      rw [show 2 * (A % B * 2^t) = (2 * (A % B)) * 2^t by ring]
      exact (Nat.mul_lt_mul_right hT).mpr h1), if_pos h1]
  · have hns : ¬(B * 2^t < 2 * (A % B * 2^t)) := by
      rw [show 2 * (A % B * 2^t) = (2 * (A % B)) * 2^t by ring]
      intro hc
      exact h1 ((Nat.mul_lt_mul_right hT).mp hc)
    by_cases h2 : 2 * (A % B) = B
    · rw [if_neg hns, if_pos (show 2 * (A % B * 2^t) = B * 2^t from by
        rw [show 2 * (A % B * 2^t) = (2 * (A % B)) * 2^t by ring, h2]), if_neg h1, if_pos h2]
    · rw [if_neg hns, if_neg (show ¬(2 * (A % B * 2^t) = B * 2^t) from by
        rw [show 2 * (A % B * 2^t) = (2 * (A % B)) * 2^t by ring]
        intro hc
        exact h2 (Nat.eq_of_mul_eq_mul_right hT hc)), if_neg h1, if_neg h2]

theorem ratLog2_shift (s b t : Nat) (hs : 1 ≤ s) (hb : 1 ≤ b) :
    ratLog2 (s * 2^t) (b * 2^t) = ratLog2 s b := by
  rw [ratLog2, ratLog2]
  rw [bitLen_shift s t hs, bitLen_shift b t hb]
  have he : ((bitLen s + t : Nat) : Int) - ((bitLen b + t : Nat) : Int)
      = (bitLen s : Int) - (bitLen b : Int) := by push_cast; ring
  rw [he]
  set e0 : Int := (bitLen s : Int) - (bitLen b : Int) with he0
  have hT : 0 < 2^t := pow_pos (by norm_num) t
  by_cases hC : b * 2 ^ e0.toNat ≤ s * 2 ^ (-e0).toNat
  · rw [if_pos hC, if_pos (by
      rw [show b * 2^t * 2 ^ e0.toNat = (b * 2 ^ e0.toNat) * 2^t by ring,
        show s * 2^t * 2 ^ (-e0).toNat = (s * 2 ^ (-e0).toNat) * 2^t by ring]
      exact Nat.mul_le_mul_right _ hC)]
  · rw [if_neg hC, if_neg (by
      rw [show b * 2^t * 2 ^ e0.toNat = (b * 2 ^ e0.toNat) * 2^t by ring,
        show s * 2^t * 2 ^ (-e0).toNat = (s * 2 ^ (-e0).toNat) * 2^t by ring]
      intro hc
      exact hC (Nat.le_of_mul_le_mul_right hc hT))]

theorem roundRat_shift (a : Int) (b t : Nat) (hb : 1 ≤ b) :
    roundRat (a * 2^t) (b * 2^t) = roundRat a b := by
  by_cases ha : a = 0
  · subst ha
    simp [roundRat]
  · rw [roundRat, roundRat]
    have hne : ¬(a * 2^t = 0) := by
      intro hc
      rcases mul_eq_zero.mp hc with h | h
      · exact ha h
      · exact absurd h (by positivity)
    rw [if_neg hne, if_neg ha]
    dsimp only
    have hs : (a * 2^t).natAbs = a.natAbs * 2^t := by
      rw [Int.natAbs_mul]
      congr 1
      rw [Int.natAbs_pow]
      rfl
    rw [hs, ratLog2_shift a.natAbs b t (by omega) hb, rrCore_shift]
    have hlt : a * 2^t < 0 ↔ a < 0 := by
      have h2 : (0 : Int) < 2^t := by positivity
      constructor
      · intro h
        by_contra hc
        have h0 : 0 ≤ a := by omega
        nlinarith
      · intro h
        exact mul_neg_of_neg_of_pos h h2
    simp only [hlt]

theorem zpow_window_lt (v : ℚ) (e m : Int) (hl : (2:ℚ)^e ≤ v) (hu : v < 2^m) : e < m := by
  by_contra hc
  have hle : (2:ℚ)^m ≤ 2^e := zpow_le_zpow_right₀ (by norm_num) (by omega)
  linarith

theorem roundRat_exact_direct (c : Int) (k : Nat) (a : Int) (b : Nat)
    (hb : 1 ≤ b) (hc0 : c ≠ 0) (hc53 : c.natAbs ≤ 2^53) (heq : a * 2^k = c * b)
    (hsh : (k : Int) ≤ min (52 - ratLog2 a.natAbs b) 1074) :
    ∃ n k2, roundRat a b = .finite n k2 ∧ k2 ≤ 1074 ∧ n * 2^k = c * 2^k2 := by
  have hbZ : (0:Int) < b := by exact_mod_cast hb
  have h2k : (0:Int) < 2^k := by positivity
  have ha0 : a ≠ 0 := by
    intro h
    rw [h, zero_mul] at heq
    rcases mul_eq_zero.mp heq.symm with h1 | h1
    · exact hc0 h1
    · omega
  have hNeq : a.natAbs * 2^k = c.natAbs * b := by
    have hcong := congrArg Int.natAbs heq
    rw [Int.natAbs_mul, Int.natAbs_mul] at hcong
    simpa [Int.natAbs_pow] using hcong
  rw [roundRat, if_neg ha0]
  dsimp only
  set e := ratLog2 a.natAbs b with he
  set sh := min (52 - e) 1074 with hshdef
  have hsh0 : (0:Int) ≤ sh := le_trans (by omega) hsh
  set S := sh.toNat with hSdef
  have hS : (S : Int) = sh := Int.toNat_of_nonneg hsh0
  have hkS : k ≤ S := by omega
  have hS74 : S ≤ 1074 := by omega
  have hnegS : (-sh).toNat = 0 := by omega
  have hq2 : rrCore a.natAbs b sh = c.natAbs * 2^(S-k) := by
    rw [rrCore_exact a.natAbs b sh (by rw [hnegS]; simpa using hb)
      (by
        rw [hnegS, pow_zero, mul_one]
        refine ⟨c.natAbs * 2^(S-k), ?_⟩
        calc a.natAbs * 2 ^ S = a.natAbs * 2^k * 2^(S-k) := by
              rw [mul_assoc, ← pow_add]
              congr 2
              omega
          _ = c.natAbs * b * 2^(S-k) := by rw [hNeq]
          _ = b * (c.natAbs * 2^(S-k)) := by ring)]
    rw [hnegS, pow_zero, mul_one]
    calc a.natAbs * 2 ^ S / b = c.natAbs * 2^(S-k) * b / b := by
          congr 1
          calc a.natAbs * 2 ^ S = a.natAbs * 2^k * 2^(S-k) := by
                rw [mul_assoc, ← pow_add]
                congr 2
                omega
            _ = c.natAbs * b * 2^(S-k) := by rw [hNeq]
            _ = c.natAbs * 2^(S-k) * b := by ring
      _ = c.natAbs * 2^(S-k) := Nat.mul_div_cancel _ (by omega)
  rw [hq2]
  rw [if_neg (show ¬(1024 + sh < 0) by omega)]
  have hE : (1024 + sh).toNat = 1024 + S := by omega
  rw [hE]
  have hqlt : c.natAbs * 2^(S-k) < 2 ^ (1024 + S) := by
    calc c.natAbs * 2^(S-k) ≤ 2^53 * 2^(S-k) := Nat.mul_le_mul_right _ hc53
      _ = 2^(53 + (S-k)) := by rw [pow_add]
      _ < 2^(1024 + S) := Nat.pow_lt_pow_right (by norm_num) (by omega)
  rw [if_neg (by omega)]
  rw [if_pos hsh0]
  refine ⟨_, S, rfl, hS74, ?_⟩
  have hpow : (2:Int)^(S-k) * 2^k = 2^S := by
    rw [← pow_add]
    congr 1
    omega
  rcases lt_trichotomy c 0 with hcneg | hczero | hcpos
  · have haneg : a < 0 := by
      by_contra hcon
      have h1 : (0:Int) ≤ a * 2^k := mul_nonneg (not_lt.mp hcon) h2k.le
      have h2 : c * b < 0 := mul_neg_of_neg_of_pos hcneg hbZ
      omega
    rw [if_pos haneg]
    push_cast
    rw [abs_of_neg hcneg]
    calc -(-c * 2^(S-k)) * 2^k = c * (2^(S-k) * 2^k) := by ring
      _ = c * 2^S := by rw [hpow]
  · exact absurd hczero hc0
  · have hapos : ¬(a < 0) := by
      intro hcon
      have h1 : a * 2^k < 0 := mul_neg_of_neg_of_pos hcon h2k
      have h2 : (0:Int) < c * b := mul_pos hcpos hbZ
      omega
    rw [if_neg hapos]
    push_cast
    rw [abs_of_pos hcpos]
    calc c * 2^(S-k) * 2^k = c * (2^(S-k) * 2^k) := by ring
      _ = c * 2^S := by rw [hpow]

theorem zpow_eq_natCast_pow (m : Nat) : ((2:ℚ)^((m:Int))) = ((2^m : Nat) : ℚ) := by
  rw [zpow_natCast]
  push_cast
  ring

theorem natAbs_cross (a : Int) (k : Nat) (c : Int) (b : Nat) (heq : a * 2^k = c * b) :
    a.natAbs * 2^k = c.natAbs * b := by
  have hcong := congrArg Int.natAbs heq
  rw [Int.natAbs_mul, Int.natAbs_mul] at hcong
  simpa [Int.natAbs_pow] using hcong

theorem roundRat_exact_top (c : Int) (a : Int) (b : Nat)
    (hb : 1 ≤ b) (hC : c.natAbs = 2^53) (heq : a = c * b) :
    roundRat a b = .finite c 0 := by
  have hbZ : (0:Int) < b := by exact_mod_cast hb
  have hc0 : c ≠ 0 := by
    intro h
    rw [h] at hC
    simp at hC
  have ha0 : a ≠ 0 := by
    intro h
    rw [h] at heq
    rcases mul_eq_zero.mp heq.symm with h1 | h1
    · exact hc0 h1
    · omega
  have hNeq : a.natAbs = c.natAbs * b := by
    have := natAbs_cross a 0 c b (by rw [pow_zero, mul_one]; exact heq)
    simpa using this
  have hs1 : 1 ≤ a.natAbs := by omega
  have hsQ : (a.natAbs : ℚ)/b = 2^(53:Int) := by
    have hb0 : (b:ℚ) ≠ 0 := by positivity
    rw [hNeq, hC]
    push_cast
    field_simp
    norm_num
  have hchar := ratLog2_spec a.natAbs b hs1 hb
  have he53 : ratLog2 a.natAbs b = 53 := by
    refine zpow_window_unique ((a.natAbs:ℚ)/b) _ 53 hchar.1 hchar.2 ?_ ?_
    · rw [hsQ]
    · rw [hsQ]
      have : ((53:Int) < 53 + 1) := by omega
      exact zpow_lt_zpow_right₀ (by norm_num) this
  rw [roundRat, if_neg ha0]
  dsimp only
  rw [he53]
  rw [show min (52 - (53:Int)) 1074 = -1 by decide]
  have hcore : rrCore a.natAbs b (-1) = 2^52 := by
    rw [rrCore_exact a.natAbs b (-1)
      (by
        rw [show ((-(-1:Int)).toNat) = 1 by decide]
        omega)
      (by
        rw [show ((-1:Int).toNat) = 0 by decide, show ((-(-1:Int)).toNat) = 1 by decide]
        rw [pow_zero, mul_one, pow_one, hNeq, hC]
        exact ⟨2^52, by ring⟩)]
    rw [show ((-1:Int).toNat) = 0 by decide, show ((-(-1:Int)).toNat) = 1 by decide]
    rw [pow_zero, mul_one, pow_one, hNeq, hC]
    calc 2^53 * b / (b * 2) = 2^52 * (b * 2) / (b * 2) := by
          congr 1
          ring
      _ = 2^52 := Nat.mul_div_cancel _ (by omega)
  rw [hcore]
  rw [if_neg (show ¬((1024:Int) + -1 < 0) by decide)]
  rw [show (((1024:Int) + -1).toNat) = 1023 by decide]
  rw [if_neg (not_le.mpr (Nat.pow_lt_pow_right (by norm_num) (by norm_num)))]
  rw [if_neg (show ¬((0:Int) ≤ -1) by decide)]
  rw [show ((-(-1:Int)).toNat) = 1 by decide]
  rcases lt_trichotomy c 0 with hcneg | hczero | hcpos
  · have haneg : a < 0 := by
      rw [heq]
      exact mul_neg_of_neg_of_pos hcneg hbZ
    rw [if_pos haneg]
    congr 1
    have hcc : c = -(2^53) := by omega
    rw [hcc]
    try push_cast
    try ring
  · exact absurd hczero hc0
  · have hapos : ¬(a < 0) := by
      rw [heq]
      intro hcon
      have := mul_pos hcpos hbZ
      omega
    rw [if_neg hapos]
    congr 1
    have hcc : c = 2^53 := by omega
    rw [hcc]
    try push_cast
    try ring

theorem roundRat_exact : ∀ (k : Nat) (c a : Int) (b : Nat), 1 ≤ b → c.natAbs ≤ 2^53 →
    k ≤ 1074 → a * 2^k = c * b →
    ∃ n k2, roundRat a b = .finite n k2 ∧ k2 ≤ 1074 ∧ n * 2^k = c * 2^k2 := by
  intro k
  induction k with
  | zero =>
    intro c a b hb hc hk heq
    rw [pow_zero, mul_one] at heq
    by_cases hc0 : c = 0
    · subst hc0
      rw [zero_mul] at heq
      refine ⟨0, 0, ?_, by omega, by ring⟩
      rw [heq]
      simp [roundRat]
    · by_cases hC : c.natAbs = 2^53
      · exact ⟨c, 0, roundRat_exact_top c a b hb hC heq, by omega, by ring⟩
      · have hbZ : (0:Int) < b := by exact_mod_cast hb
        have ha0 : a ≠ 0 := by
          intro h
          rw [h] at heq
          rcases mul_eq_zero.mp heq.symm with h1 | h1
          · exact hc0 h1
          · omega
        have hs1 : 1 ≤ a.natAbs := by omega
        have hNeq : a.natAbs = c.natAbs * b := by
          have := natAbs_cross a 0 c b (by rw [pow_zero, mul_one]; exact heq)
          simpa using this
        have hchar := ratLog2_spec a.natAbs b hs1 hb
        have hbq : (0:ℚ) < b := by exact_mod_cast hb
        have hub : ((a.natAbs:ℚ))/b < 2^(53:Int) := by
          have h53 : ((2:ℚ)^(53:Int)) = ((2^53 : Nat) : ℚ) := by norm_num
          rw [div_lt_iff₀ hbq, h53]
          rw [show ((a.natAbs : ℚ)) = ((c.natAbs * b : Nat) : ℚ) by exact_mod_cast hNeq]
          push_cast
          have hclt : (c.natAbs : ℚ) < ((2^53 : Nat) : ℚ) := by
            exact_mod_cast (by omega : c.natAbs < 2^53)
          push_cast at hclt
          exact mul_lt_mul_of_pos_right hclt hbq
        have helt : ratLog2 a.natAbs b < 53 := zpow_window_lt _ _ _ hchar.1 hub
        exact roundRat_exact_direct c 0 a b hb hc0 hc (by rw [pow_zero, mul_one]; exact heq)
          (by omega)
  | succ k ih =>
    intro c a b hb hc hk heq
    by_cases hc0 : c = 0
    · subst hc0
      rw [zero_mul] at heq
      have ha : a = 0 := by
        rcases mul_eq_zero.mp heq with h1 | h1
        · exact h1
        · exact absurd h1 (by positivity)
      refine ⟨0, 0, ?_, by omega, by ring⟩
      rw [ha]
      simp [roundRat]
    · rcases Int.even_or_odd c with ⟨c2, hc2⟩ | ⟨c2, hc2⟩
      · have hc2' : c = 2 * c2 := by omega
        have heq2 : a * 2^k = c2 * b := by
          apply mul_left_cancel₀ (show (2:Int) ≠ 0 by norm_num)
          calc 2 * (a * 2^k) = a * 2^(k+1) := by rw [pow_succ]; ring
            _ = c * b := heq
            _ = 2 * (c2 * b) := by rw [hc2']; ring
        have hc2abs : c2.natAbs ≤ 2^53 := by
          have h1 : c.natAbs = 2 * c2.natAbs := by
            rw [hc2', Int.natAbs_mul]
            rfl
          have h3 : (2:Nat)^53 ≤ 2 * 2^53 := by omega
          omega
        obtain ⟨n, k2, hout, hk2, hrel⟩ := ih c2 a b hb hc2abs (by omega) heq2
        refine ⟨n, k2, hout, hk2, ?_⟩
        calc n * 2^(k+1) = 2 * (n * 2^k) := by rw [pow_succ]; ring
          _ = 2 * (c2 * 2^k2) := by rw [hrel]
          _ = c * 2^k2 := by rw [hc2']; ring
      · have hbZ : (0:Int) < b := by exact_mod_cast hb
        have ha0 : a ≠ 0 := by
          intro h
          rw [h, zero_mul] at heq
          rcases mul_eq_zero.mp heq.symm with h1 | h1
          · exact hc0 h1
          · omega
        have hs1 : 1 ≤ a.natAbs := by omega
        have hCodd : c.natAbs % 2 = 1 := by
          omega
        have hClt : c.natAbs < 2^53 := by
          have h2 : (2:Nat)^53 = 2 * 2^52 := by rw [pow_succ]; ring
          omega
        have hNeq : a.natAbs * 2^(k+1) = c.natAbs * b := natAbs_cross a (k+1) c b heq
        have hchar := ratLog2_spec a.natAbs b hs1 hb
        have hbq : (0:ℚ) < b := by exact_mod_cast hb
        have hub : ((a.natAbs:ℚ))/b < 2^((52:Int) - k) := by
          rw [div_lt_iff₀ hbq]
          have h2pos : (0:ℚ) < 2^(k+1) := by positivity
          rw [← mul_lt_mul_right h2pos]
          have haq : (a.natAbs : ℚ) * 2^(k+1) = (c.natAbs : ℚ) * b := by
            exact_mod_cast hNeq
          rw [haq]
          have hkey : (2:ℚ)^((52:Int)-k) * 2^(k+1) = ((2^53 : Nat) : ℚ) := by
            rw [show ((2:ℚ)^(k+1)) = (2:ℚ)^(((k+1 : Nat)):Int) from (zpow_natCast 2 (k+1)).symm]
            rw [← zpow_add₀ (by norm_num : (2:ℚ) ≠ 0)]
            rw [show ((52:Int) - k + ((k+1 : Nat)) : Int) = (((53:Nat)):Int) by push_cast; ring]
            exact zpow_eq_natCast_pow 53
          have hclt : (c.natAbs : ℚ) < ((2^53 : Nat) : ℚ) := by exact_mod_cast hClt
          calc (c.natAbs:ℚ) * b < ((2^53 : Nat) : ℚ) * b :=
                mul_lt_mul_of_pos_right hclt hbq
            _ = 2^((52:Int)-k) * b * 2^(k+1) := by rw [mul_right_comm, hkey]
        have helt : ratLog2 a.natAbs b < 52 - k := zpow_window_lt _ _ _ hchar.1 hub
        exact roundRat_exact_direct c (k+1) a b hb hc0 (le_of_lt hClt) heq (by omega)

theorem roundRat_pos_struct (a : Int) (b : Nat) (hb : 1 ≤ b) (ha : 0 ≤ a)
    (hbound : a < 2^31 * b) :
    ∃ n k2, roundRat a b = .finite n k2 ∧ 0 ≤ n ∧ n.natAbs ≤ 2^53 ∧ k2 ≤ 1074 ∧
      (n : ℚ) / 2^k2 < 2^32 := by
  by_cases ha0 : a = 0
  · refine ⟨0, 0, ?_, le_rfl, by norm_num, by omega, by norm_num⟩
    rw [ha0]
    simp [roundRat]
  · have hbZ : (0:Int) < b := by exact_mod_cast hb
    have hbq : (0:ℚ) < b := by exact_mod_cast hb
    have hs1 : 1 ≤ a.natAbs := by omega
    have hsN : a.natAbs < 2^31 * b := by
      have h31 : ((2:Int)^31 * b).natAbs = 2^31 * b := by
        rw [Int.natAbs_mul, Int.natAbs_pow]
        rfl
      omega
    have hchar := ratLog2_spec a.natAbs b hs1 hb
    have hub31 : ((a.natAbs:ℚ))/b < 2^(31:Int) := by
      have h31 : ((2:ℚ)^(31:Int)) = ((2^31 : Nat) : ℚ) := by norm_num
      rw [div_lt_iff₀ hbq, h31]
      exact_mod_cast hsN
    have helt : ratLog2 a.natAbs b < 31 := zpow_window_lt _ _ _ hchar.1 hub31
    rw [roundRat, if_neg ha0]
    dsimp only
    set e := ratLog2 a.natAbs b with he
    set sh := min (52 - e) 1074 with hshdef
    have hsh0 : (0:Int) ≤ sh := by omega
    set S := sh.toNat with hSdef
    have hS : (S : Int) = sh := Int.toNat_of_nonneg hsh0
    have hS74 : S ≤ 1074 := by omega
    have hSe : (S : Int) ≤ 52 - e := by omega
    have hnegS : (-sh).toNat = 0 := by omega
    have hPq : (0:ℚ) < 2^S := by positivity
    have hq2b := rrCore_bounds a.natAbs b sh
    rw [hnegS, pow_zero, mul_one] at hq2b
    set q := a.natAbs * 2 ^ S / b with hq
    set q2 := rrCore a.natAbs b sh with hq2def
    have hqrat : (q:ℚ) ≤ ((a.natAbs:ℚ))/b * 2^S := by
      calc (q:ℚ) ≤ ((a.natAbs * 2^S : Nat):ℚ)/b := Nat.cast_div_le
        _ = ((a.natAbs:ℚ))/b * 2^S := by push_cast; ring
    have hq53 : q < 2^53 := by
      have hr : ((a.natAbs:ℚ))/b * 2^S < 2^(e+1) * 2^S :=
        mul_lt_mul_of_pos_right hchar.2 hPq
      have hzp : ((2:ℚ)^(e+1)) * 2^S = 2^(e + 1 + S) := by
        rw [show ((2:ℚ)^S) = (2:ℚ)^((S:Nat):Int) from (zpow_natCast 2 S).symm]
        rw [← zpow_add₀ (by norm_num : (2:ℚ) ≠ 0)]
      have hle : ((2:ℚ)^(e + 1 + (S:Int))) ≤ 2^(53:Int) :=
        zpow_le_zpow_right₀ (by norm_num) (by omega)
      have h53 : ((2:ℚ)^(53:Int)) = ((2^53 : Nat) : ℚ) := by norm_num
      have : (q:ℚ) < ((2^53 : Nat) : ℚ) := by
        calc (q:ℚ) ≤ ((a.natAbs:ℚ))/b * 2^S := hqrat
          _ < 2^(e+1) * 2^S := hr
          _ = 2^(e + 1 + (S:Int)) := hzp
          _ ≤ 2^(53:Int) := hle
          _ = ((2^53 : Nat) : ℚ) := h53
      exact_mod_cast this
    have hq2_53 : q2 ≤ 2^53 := by omega
    rw [if_neg (show ¬(1024 + sh < 0) by omega)]
    have hE : (1024 + sh).toNat = 1024 + S := by omega
    rw [hE]
    rw [if_neg (by
      have : q2 < 2^(1024 + S) := by
        calc q2 ≤ 2^53 := hq2_53
          _ < 2^(1024 + S) := Nat.pow_lt_pow_right (by norm_num) (by omega)
      omega)]
    rw [if_pos hsh0]
    rw [if_neg (show ¬(a < 0) by omega)]
    refine ⟨(q2 : Int), S, rfl, by positivity, by simpa using hq2_53, hS74, ?_⟩
    rw [div_lt_iff₀ hPq]
    have hqv : ((a.natAbs:ℚ))/b * 2^S < 2^(31:Int) * 2^S :=
      mul_lt_mul_of_pos_right hub31 hPq
    have h1P : (1:ℚ) ≤ 2^S := one_le_pow₀ (by norm_num)
    have h31' : ((2:ℚ)^(31:Int)) = ((2^31 : Nat) : ℚ) := by norm_num
    have hq2q : (q2 : ℚ) ≤ (q:ℚ) + 1 := by exact_mod_cast hq2b.2
    calc ((q2:Int) : ℚ) = (q2 : ℚ) := by push_cast; ring
      _ ≤ (q:ℚ) + 1 := hq2q
      _ < 2^(31:Int) * 2^S + 2^S := by
          have := lt_of_le_of_lt hqrat hqv
          linarith
      _ = (((2^31 : Nat):ℚ) + 1) * 2^S := by rw [h31']; ring
      _ ≤ 2^32 * 2^S := by
          have hc : (((2^31 : Nat):ℚ) + 1) ≤ 2^32 := by norm_num
          exact mul_le_mul_of_nonneg_right hc (by positivity)

/-! ## From the float pipeline to the floor formulas -/

theorem pow_cast2 (k : Nat) : ((2^k : Nat) : Int) = 2^k := by push_cast; ring

theorem int_ediv_eq_floor2 (m : Int) (k : Nat) :
    m / ((2:Int)^k) = ⌊(m : ℚ) / 2^k⌋ := by
  rw [← pow_cast2, int_ediv_eq_floor m (2^k)]
  congr 1
  push_cast
  ring

theorem emod_mul_ediv (n d : Int) (hd : 0 < d) : (n % (60*d)) / d = (n / d) % 60 := by
  have hD : (0:Int) < 60*d := by positivity
  have h1 : n / d / 60 = n / (60*d) := by
    rw [int_ediv_ediv n hd (by norm_num : (0:Int) < 60)]
    rw [mul_comm]
  have h2 : n % (60*d) = (n % d) + d * ((n / d) % 60) := by
    rw [Int.emod_def n (60*d), Int.emod_def n d, Int.emod_def (n/d) 60, ← h1]
    ring
  rw [h2]
  rw [Int.add_mul_ediv_left _ _ (by omega : d ≠ 0)]
  have h3 : (n % d) / d = 0 := by
    apply Int.ediv_eq_zero_of_lt (Int.emod_nonneg n (by omega)) (Int.emod_lt_of_pos n hd)
  rw [h3, zero_add]

theorem f64_ipart (n : Int) (k : Nat) (hn : 0 ≤ n) :
    n.tdiv ((2:Int)^k) = ⌊((n:ℚ)/2^k)⌋ := by
  rw [Int.tdiv_eq_ediv hn (by positivity)]
  exact int_ediv_eq_floor2 n k

theorem f64_minutes (n : Int) (k : Nat) (hn : 0 ≤ n) :
    n.fdiv (60 * 2^k) = ⌊((n:ℚ)/2^k) / 60⌋ := by
  rw [Int.fdiv_eq_ediv _ (by positivity)]
  rw [div_div]
  rw [show ((2:ℚ)^k * 60) = (((2^k * 60 : Nat)) : ℚ) by push_cast; ring]
  rw [← int_ediv_eq_floor n (2^k * 60)]
  congr 1
  push_cast
  ring

theorem f64_seconds (n : Int) (k : Nat) (hn : 0 ≤ n) :
    (n - (n.tdiv (60 * 2^k)) * (60 * 2^k)).tdiv ((2:Int)^k) = ⌊((n:ℚ)/2^k)⌋ % 60 := by
  have hd : (0:Int) < 2^k := by positivity
  have hD : (0:Int) < 60 * 2^k := by positivity
  have ht : n.tdiv (60 * 2^k) = n / (60 * 2^k) := Int.tdiv_eq_ediv hn (by positivity)
  have hr : n - (n.tdiv (60 * 2^k)) * (60 * 2^k) = n % (60 * 2^k) := by
    rw [ht, Int.emod_def]
    ring
  rw [hr]
  have hrn : 0 ≤ n % (60 * 2^k) := Int.emod_nonneg n (by omega)
  rw [Int.tdiv_eq_ediv hrn (by positivity)]
  rw [emod_mul_ediv n (2^k) hd]
  rw [← int_ediv_eq_floor2 n k]

theorem truncToInt_finite (n : Int) (k : Nat) :
    F64.truncToInt (F64.finite n k) = .ok (n.tdiv (2^k)) := rfl

theorem sub_finite (n1 : Int) (k1 : Nat) (n2 : Int) (k2 : Nat) :
    F64.sub (F64.finite n1 k1) (F64.finite n2 k2)
      = roundRat (n1 * 2^k2 - n2 * 2^k1) (2^(k1+k2)) := rfl

theorem mul_finite (n1 : Int) (k1 : Nat) (n2 : Int) (k2 : Nat) :
    F64.mul (F64.finite n1 k1) (F64.finite n2 k2)
      = roundRat (n1 * n2) (2^(k1+k2)) := rfl

theorem floordiv_finite (n1 : Int) (k1 : Nat) (n2 : Int) (k2 : Nat) (h2 : n2 ≠ 0) :
    F64.floordiv (F64.finite n1 k1) (F64.finite n2 k2)
      = .ok (roundRat ((n1 * 2^k2).fdiv (n2 * 2^k1)) 1) := by
  rw [F64.floordiv, if_neg h2]

theorem pymod_nonneg (n1 : Int) (k1 : Nat) (n2 : Int) (k2 : Nat)
    (h1 : 0 ≤ n1) (h2 : 0 < n2) :
    F64.pymod (F64.finite n1 k1) (F64.finite n2 k2)
      = .ok (.finite (n1 * 2^k2 - (n1 * 2^k2).tdiv (n2 * 2^k1) * (n2 * 2^k1)) (k1 + k2)) := by
  have hB : (0:Int) < n2 * 2^k1 := by positivity
  have hA : (0:Int) ≤ n1 * 2^k2 := by positivity
  have hr : 0 ≤ n1 * 2^k2 - (n1 * 2^k2).tdiv (n2 * 2^k1) * (n2 * 2^k1) := by
    rw [Int.tdiv_eq_ediv hA (le_of_lt hB)]
    have := Int.emod_nonneg (n1 * 2^k2) (by omega : n2 * 2^k1 ≠ 0)
    rw [Int.emod_def] at this
    linarith
  rw [F64.pymod, if_neg (by omega : ¬ n2 = 0), if_neg]
  intro ⟨hne, hsg⟩
  apply hsg
  rw [decide_eq_false (by omega), decide_eq_false (by omega)]

theorem roundRat_sub_ipart (n : Int) (k : Nat) (I n2 : Int) (k2 : Nat)
    (hn : 0 ≤ n) (hI : I = n.tdiv (2^k)) (hrel : n2 * 2^(0:Nat) = I * 2^k2) :
    roundRat (n * 2^k2 - n2 * 2^k) (2^(k+k2)) = roundRat (n % 2^k) (2^k) := by
  have hn2 : n2 = I * 2^k2 := by simpa using hrel
  have hIe : I = n / 2^k := by rw [hI, Int.tdiv_eq_ediv hn (by positivity)]
  have ha : n * 2^k2 - n2 * 2^k = (n % 2^k) * 2^k2 := by
    rw [hn2, hIe, Int.emod_def]
    ring
  rw [ha, show (2:Nat)^(k+k2) = 2^k * 2^k2 from pow_add 2 k k2]
  exact roundRat_shift (n % 2^k) (2^k) k2 Nat.one_le_two_pow

theorem emod_le_2_53 (n : Int) (k : Nat) (hn : 0 ≤ n) (h53 : n.natAbs ≤ 2^53) :
    (n % (2:Int)^k).natAbs ≤ 2^53 := by
  have hpos : (0:Int) < 2^k := by positivity
  have h1 : 0 ≤ n % (2:Int)^k := Int.emod_nonneg n (by omega)
  have h2 : n % (2:Int)^k < 2^k := Int.emod_lt_of_pos n hpos
  have h4 : ((2^53 : Nat) : Int) = 2^53 := by push_cast; try ring
  rcases le_or_lt k 53 with hk | hk
  · have h3 : (2:Int)^k ≤ 2^53 := pow_le_pow_right₀ (by norm_num) hk
    omega
  · have h3 : (2:Int)^53 < 2^k := pow_lt_pow_right₀ (by norm_num) hk
    have h5 : n < (2:Int)^k := by omega
    rw [Int.emod_eq_of_lt hn h5]
    exact h53

theorem roundRat_rep_mul1000 (nd : Int) (kd : Nat) (c : Int) (k : Nat)
    (hrel : nd * 2^k = c * 2^kd) :
    roundRat (nd * 1000) (2^kd) = roundRat (c * 1000) (2^k) := by
  rcases le_total k kd with h | h
  · have hc : nd = c * 2^(kd-k) := by
      apply mul_right_cancel₀ (show ((2:Int)^k) ≠ 0 by positivity)
      rw [hrel, show (2:Int)^kd = 2^(kd-k) * 2^k by rw [← pow_add]; congr 1; omega]
      ring
    rw [hc, show (c * 2^(kd-k)) * 1000 = (c * 1000) * 2^(kd-k) by ring]
    rw [show (2:Nat)^kd = 2^k * 2^(kd-k) by rw [← pow_add]; congr 1; omega]
    exact roundRat_shift (c*1000) (2^k) (kd-k) Nat.one_le_two_pow
  · have hc : c = nd * 2^(k-kd) := by
      apply mul_right_cancel₀ (show ((2:Int)^kd) ≠ 0 by positivity)
      rw [← hrel, show (2:Int)^k = 2^(k-kd) * 2^kd by rw [← pow_add]; congr 1; omega]
      ring
    rw [hc, show (nd * 2^(k-kd)) * 1000 = (nd * 1000) * 2^(k-kd) by ring]
    rw [show (2:Nat)^k = 2^kd * 2^(k-kd) by rw [← pow_add]; congr 1; omega]
    exact (roundRat_shift (nd*1000) (2^kd) (k-kd) Nat.one_le_two_pow).symm

theorem tsChunkF_spec (m : Int) (e : Nat) (t : String) (hm : 0 ≤ m)
    (hB : m < 2^31 * 10^e) :
    tsChunk (mkSegment (m, e, t)) = .ok (specTimestampF m e ++ pyStrip t ++ "\n") := by
  obtain ⟨n, k, hx, hn0, hn53, hk74, hv32⟩ :=
    roundRat_pos_struct m (10^e) (Nat.one_le_pow _ _ (by norm_num)) hm
      (by push_cast; exact hB)
  have hxd : ofDecimal m e = F64.finite n k := hx
  have hfd : F64.floordiv (F64.finite n k) sixty
      = .ok (roundRat (n.fdiv (60 * 2^k)) 1) := by
    rw [sixty, floordiv_finite n k 60 0 (by norm_num)]
    norm_num
  have hfd0 : 0 ≤ n.fdiv (60 * 2^k) := by
    rw [Int.fdiv_eq_ediv _ (by positivity)]
    exact Int.ediv_nonneg hn0 (by positivity)
  have hfdle : n.fdiv (60 * 2^k) ≤ n := by
    rw [Int.fdiv_eq_ediv _ (by positivity)]
    exact Int.ediv_le_self _ hn0
  obtain ⟨nf, kf, hof, hkf, hrelf⟩ :=
    roundRat_exact 0 (n.fdiv (60 * 2^k)) (n.fdiv (60 * 2^k)) 1 (le_refl 1)
      (by omega) (by norm_num) (by push_cast; ring)
  have hminutes : nf.tdiv (2^kf) = ⌊dblQ m e / 60⌋ := by
    have hnf : nf = n.fdiv (60 * 2^k) * 2^kf := by simpa using hrelf
    rw [hnf, Int.mul_tdiv_cancel _ (by positivity : ((2:Int)^kf) ≠ 0)]
    rw [dblQ, hxd, show f64Val (F64.finite n k) = (n:ℚ)/2^k from rfl]
    exact f64_minutes n k hn0
  have hpm : F64.pymod (F64.finite n k) sixty
      = .ok (.finite (n - n.tdiv (60 * 2^k) * (60 * 2^k)) k) := by
    rw [sixty, pymod_nonneg n k 60 0 hn0 (by norm_num)]
    norm_num
  have hseconds : (n - n.tdiv (60 * 2^k) * (60 * 2^k)).tdiv ((2:Int)^k)
      = ⌊dblQ m e⌋ % 60 := by
    rw [dblQ, hxd, show f64Val (F64.finite n k) = (n:ℚ)/2^k from rfl]
    exact f64_seconds n k hn0
  have hIed : n.tdiv ((2:Int)^k) = n / 2^k := Int.tdiv_eq_ediv hn0 (by positivity)
  have hI0 : 0 ≤ n.tdiv ((2:Int)^k) := by
    rw [hIed]
    exact Int.ediv_nonneg hn0 (by positivity)
  have hIle : n.tdiv ((2:Int)^k) ≤ n := by
    rw [hIed]
    exact Int.ediv_le_self _ hn0
  obtain ⟨n2, k2, ho2, hk2, hrel2⟩ :=
    roundRat_exact 0 (n.tdiv ((2:Int)^k)) (n.tdiv ((2:Int)^k)) 1 (le_refl 1)
      (by omega) (by norm_num) (by push_cast; ring)
  have hsub : F64.sub (F64.finite n k) (F64.finite n2 k2)
      = roundRat (n % 2^k) (2^k) := by
    rw [sub_finite]
    exact roundRat_sub_ipart n k (n.tdiv ((2:Int)^k)) n2 k2 hn0 rfl hrel2
  obtain ⟨nd, kd, hod, hkd, hreld⟩ :=
    roundRat_exact k (n % (2:Int)^k) (n % (2:Int)^k) (2^k) Nat.one_le_two_pow
      (emod_le_2_53 n k hn0 hn53) hk74 (by push_cast; ring)
  have hmul : F64.mul (F64.finite nd kd) thousand
      = roundRat ((n % (2:Int)^k) * 1000) (2^k) := by
    rw [thousand, mul_finite, Nat.add_zero]
    exact roundRat_rep_mul1000 nd kd (n % (2:Int)^k) k hreld
  have hc'lt : n % (2:Int)^k < 2^k := Int.emod_lt_of_pos n (by positivity)
  have hc'0 : 0 ≤ n % (2:Int)^k := Int.emod_nonneg n (by positivity)
  obtain ⟨nr, kr, hor, hnr0, hnr53, hkr, hvr⟩ :=
    roundRat_pos_struct ((n % (2:Int)^k) * 1000) (2^k) Nat.one_le_two_pow
      (mul_nonneg hc'0 (by norm_num))
      (by push_cast; nlinarith [hc'lt, pow_pos (show (0:Int) < 2 by norm_num) k])
  have hms : nr.tdiv (2^kr) = ⌊rnFrac1000 (ofDecimal m e)⌋ := by
    rw [hxd]
    rw [show rnFrac1000 (F64.finite n k)
      = f64Val (roundRat ((n % (2 ^ k : Int)) * 1000) (2 ^ k)) from rfl]
    rw [hor, show f64Val (F64.finite nr kr) = (nr:ℚ)/2^kr from rfl]
    rw [← int_ediv_eq_floor2 nr kr]
    exact Int.tdiv_eq_ediv hnr0 (by positivity)
  rw [tsChunk]
  rw [show pyDictGet (mkSegment (m, e, t)) "start" (Json.num 0 0)
    = Except.ok (Json.num m e) from rfl, except_bind_ok]
  rw [show jsonToF64 (Json.num m e) = Except.ok (ofDecimal m e) from rfl,
    except_bind_ok, hxd]
  rw [hfd, except_bind_ok, hof, truncToInt_finite, except_bind_ok, hminutes]
  rw [hpm, except_bind_ok, truncToInt_finite, except_bind_ok, hseconds]
  rw [truncToInt_finite, except_bind_ok]
  rw [show ofIntF (n.tdiv ((2:Int)^k)) = roundRat (n.tdiv ((2:Int)^k)) 1 from rfl, ho2]
  rw [hsub, hod, hmul, hor, truncToInt_finite, except_bind_ok, hms]
  rw [show pyDictGet (mkSegment (m, e, t)) "text" (Json.str "")
    = Except.ok (Json.str t) from rfl, except_bind_ok]
  rw [show pyStrAttrStrip (Json.str t) = Except.ok (pyStrip t) from rfl, except_bind_ok]
  rw [specTimestampF]

theorem tsTextF_spec (pairs : List (Int × Nat × String))
    (h : ∀ p ∈ pairs, 0 ≤ p.1 ∧ p.1 < 2^31 * 10^p.2.1) :
    tsText (pairs.map mkSegment)
      = .ok (catStrings (pairs.map (fun p =>
          specTimestampF p.1 p.2.1 ++ pyStrip p.2.2 ++ "\n"))) := by
  induction pairs with
  | nil => rfl
  | cons p ps ih =>
    obtain ⟨m, e, t⟩ := p
    have hp := h (m, e, t) (List.mem_cons_self _ _)
    have hps : ∀ q ∈ ps, 0 ≤ q.1 ∧ q.1 < 2^31 * 10^q.2.1 :=
      fun q hq => h q (List.mem_cons_of_mem _ hq)
    simp only [List.map_cons, tsText]
    rw [tsChunkF_spec m e t hp.1 hp.2, except_bind_ok, ih hps, except_bind_ok]
    rfl

theorem head_bracket_ws (x : String) (hx : x.data.head? = some '[') :
    ∀ c, x.data.head? = some c → isPyWs c = false := by
  intro c hc
  rw [hx] at hc
  cases Option.some.inj hc
  decide

theorem c4SpecTextF_strip (pairs : List (Int × Nat × String)) :
    pyStrip (catStrings (pairs.map (fun p =>
        specTimestampF p.1 p.2.1 ++ pyStrip p.2.2 ++ "\n")))
      = c4SpecTextF pairs := by
  rw [c4SpecTextF]
  cases pairs with
  | nil => rfl
  | cons p ps =>
    apply pyStrip_eq_pyRstrip
    simp only [List.map_cons, catStrings]
    exact head_bracket_ws _ rfl

/-- C4: for responseFormat text_with_timestamps on an HTTP 200 verbose_json
response, for every segments array of well-formed segments the returned text
is the in-order concatenation of, per segment, the timestamp of the binary64
value of its decimal start time (minutes and seconds the exact floors of
x / 60 and x mod 60, zero-padded to 2 digits; milliseconds 1000 times the
fractional part of x rounded once to binary64 and truncated toward zero,
padded to 3 digits) immediately followed by the segment's trimmed text and a
line break, with whitespace trimmed from the ends of the final result; and
the spec's example (start=65.25 text="hi", then start=0 text="bye") yields
"[01:05.250]hi\n[00:00.000]bye" with success and status "200 OK". -/
theorem c4_amended :
    (∀ (body : String) (pairs : List (Int × Nat × String)),
        loads body = some (Json.obj [("segments", Json.arr (pairs.map mkSegment))]) →
        (∀ p ∈ pairs, 0 ≤ p.1 ∧ p.1 < 2^31 * 10^p.2.1) →
        shapeResponse "text_with_timestamps" "verbose_json" body
          = .ok (some ⟨c4SpecTextF pairs, true, "200 OK"⟩)) ∧
    process_translation_request envTs "whisper-large-v3" "a.wav" DEFAULT_PROMPT ""
        "text_with_timestamps" (PyFloat.ofInt 0) 2 = .ok trTs := by
  constructor
  · intro body pairs hb hbound
    rw [shapeResponse_ts body _ hb]
    rw [show pyDictGet (Json.obj [("segments", Json.arr (pairs.map mkSegment))])
        "segments" (Json.arr [])
      = Except.ok (Json.arr (pairs.map mkSegment)) from rfl, except_bind_ok]
    rw [show pyIter (Json.arr (pairs.map mkSegment))
      = Except.ok (pairs.map mkSegment) from rfl, except_bind_ok]
    rw [tsTextF_spec pairs hbound, except_bind_ok]
    rw [c4SpecTextF_strip pairs]
  · rfl

/-- Witness for C4: the spec's two-segment example is covered by the general
statement, and the general formula evaluates on it to the spec's string. -/
theorem c4_amended_witness :
    (∀ p ∈ ([((6525:Int), 2, "hi"), ((0:Int), 0, "bye")] : List (Int × Nat × String)),
        0 ≤ p.1 ∧ p.1 < 2^31 * 10^p.2.1) ∧
    c4SpecTextF [((6525:Int), 2, "hi"), ((0:Int), 0, "bye")]
      = "[01:05.250]hi\n[00:00.000]bye" := by
  refine ⟨by decide, ?_⟩
  have h2 := c4_amended.1
    "\x7b\"segments\": [\x7b\"start\": 65.25, \"text\": \"hi\"\x7d, \x7b\"start\": 0, \"text\": \"bye\"\x7d]\x7d"
    [((6525:Int), 2, "hi"), ((0:Int), 0, "bye")] rfl (by decide)
  have h1 : shapeResponse "text_with_timestamps" "verbose_json"
      "\x7b\"segments\": [\x7b\"start\": 65.25, \"text\": \"hi\"\x7d, \x7b\"start\": 0, \"text\": \"bye\"\x7d]\x7d"
      = .ok (some ⟨"[01:05.250]hi\n[00:00.000]bye", true, "200 OK"⟩) := rfl
  rw [h1] at h2
  simp only [Except.ok.injEq, Option.some.injEq, TranslationResult.mk.injEq] at h2
  exact h2.1.symm

/-- Counterexample to the frozen C4 reading of start times as exact
decimals: at start=8.7 the code works on the binary64 nearest 8.7, which
is slightly below it, and prints [00:08.699], while the exact-decimal
formula gives [00:08.700]. -/
theorem c4_counterexample :
    shapeResponse "text_with_timestamps" "verbose_json"
        "\x7b\"segments\": [\x7b\"start\": 8.7, \"text\": \"hi\"\x7d]\x7d"
      = .ok (some (TranslationResult.mk "[00:08.699]hi" true "200 OK")) ∧
    c4SpecText [((87:Int), 1, "hi")] = "[00:08.700]hi" ∧
    "[00:08.699]hi" ≠ "[00:08.700]hi" := by
  refine ⟨rfl, ?_, by decide⟩
  rw [c4SpecText, List.map_cons, List.map_nil, catStrings, catStrings, specTimestamp]
  have h1 : ⌊((87:Int):ℚ)/10^(1:Nat)/60⌋ = 0 := by
    apply Int.floor_eq_iff.mpr
    constructor <;> norm_num
  have h2 : ⌊((87:Int):ℚ)/10^(1:Nat)⌋ = 8 := by
    apply Int.floor_eq_iff.mpr
    constructor <;> norm_num
  rw [h1, h2]
  have h3 : ⌊(((87:Int):ℚ)/10^(1:Nat) - ((8:Int):ℚ)) * 1000⌋ = 700 := by
    apply Int.floor_eq_iff.mpr
    constructor <;> norm_num
  rw [h3]
  rfl
